import Mathlib

/-!
Verification of the boot-control-message store and the update-image writer
of `src/updater/bootloader.c`.

The two externally visible operations on the misc partition,
`get_bootloader_message` and `set_bootloader_message`, and the update-image
writer `write_update_for_bootloader`, are embedded shallowly.  The MTD
partition primitives (`mtd_find_partition_by_name`, `mtd_read_data`,
`mtd_write_data`, `mtd_erase_blocks`, `mtd_find_write_start`,
`mtd_write_close`) live outside this repository's sources; per the spec they
are external collaborators, so their observable results are supplied by an
oracle argument, and the functions under verification are translated
statement-for-statement from the C source against that oracle.

Bytes are modelled as natural numbers below 256 (values are never combined
arithmetically, so no masking is needed); machine-word wraparound is applied
explicitly (`wrap32`) where the C code converts `off_t` values into the
`unsigned` header fields.
-/

/-- Modelled from the spec: the update-header magic byte pattern
(`UPDATE_MAGIC` in bootloader.h, which is outside src/).  The spec fixes only
that it is a fixed-size nonzero byte pattern that distinguishes a valid
header from zeroed storage; the concrete bytes are immaterial to every claim. -/
def UPDATE_MAGIC : List Nat := [77, 83, 77, 45, 82, 65, 68, 73]

/-- Size in bytes of the magic field (`UPDATE_MAGIC_SIZE` in bootloader.h). -/
def UPDATE_MAGIC_SIZE : Nat := UPDATE_MAGIC.length

/-- Modelled from the spec: the header version constant (`UPDATE_VERSION` in
bootloader.h, outside src/); its concrete value is immaterial to every claim. -/
def UPDATE_VERSION : Nat := 1

/-- `sizeof(struct update_header)`: the magic plus eleven 4-byte `unsigned`
fields (version, size, image offset/length, bitmap width/height/bpp,
busy-bitmap offset/length, fail-bitmap offset/length). -/
def HEADER_SIZE : Nat := UPDATE_MAGIC_SIZE + 11 * 4

/-- Modelled from the spec: the log-block magic marker (`LOG_MAGIC` in
bootloader.h, outside src/). -/
def LOG_MAGIC : List Nat := [76, 79, 71, 77]

/-- Size in bytes of the log magic (`LOG_MAGIC_SIZE`). -/
def LOG_MAGIC_SIZE : Nat := LOG_MAGIC.length

/-- `sizeof(size_t)` on the 32-bit ARM target this device code compiles for. -/
def SIZEOF_SIZE_T : Nat := 4

/-- `MISC_PAGES` from bootloader.c: number of pages of the misc region. -/
def MISC_PAGES : Nat := 3

/-- `MISC_COMMAND_PAGE` from bootloader.c: page index of the command record. -/
def MISC_COMMAND_PAGE : Nat := 1

/-- Conversion of a signed machine value into a 32-bit `unsigned` field. -/
def wrap32 (z : Int) : Nat := (z % (2 ^ 32)).toNat

/-- The misc partition: its write (page) size and its current byte contents.
The spec's invariant is that the region of interest is exactly
`page_size * 3` bytes; `contents` holds at least that region. -/
structure MiscPartition where
  writeSize : Nat
  contents : List Nat
  deriving DecidableEq, Repr

/-- Observable behaviour of the external MTD primitives during one call on
the misc partition: whether the partition is found (covering both
`mtd_find_partition_by_name` and `mtd_partition_info`), whether the
read/write sessions open, how many bytes `mtd_read_data` actually returns
for a requested size, and whether the full-buffer write and the final close
succeed. -/
structure MiscFaults where
  findOk : Bool
  openReadOk : Bool
  readBytes : Nat → Nat
  openWriteOk : Bool
  writeFullOk : Bool
  closeOk : Bool

/-- `memcpy(&buf[off], src, src.length)`: overlay `src` into `buf` at `off`. -/
def overlayAt (buf : List Nat) (off : Nat) (src : List Nat) : List Nat :=
  buf.take off ++ src ++ buf.drop (off + src.length)

/-- `get_bootloader_message` (bootloader.c lines 45-74).  `msgSize` is
`sizeof(struct bootloader_message)`; the record struct is declared in
bootloader.h outside src/, so the record is modelled as its raw bytes and its
size is a parameter.  Returns the record bytes, or `none` on any failure. -/
def get_bootloader_message (msgSize : Nat) (p : MiscPartition) (f : MiscFaults) :
    Option (List Nat) :=
  if f.findOk = false then none
  else if f.openReadOk = false then none
  else
    let size := p.writeSize * MISC_PAGES
    if f.readBytes size ≠ size then none
    else
      some (((p.contents.take size).drop (p.writeSize * MISC_COMMAND_PAGE)).take msgSize)

/-- `set_bootloader_message` (bootloader.c lines 76-122).  The record `rec`
is the raw bytes of `*in` (`sizeof(*in) = rec.length`).  On success, returns
the new three-page region contents together with the string argument the
final `LOGI("Set boot command ...")` line receives: the command field itself,
or the empty string when its first byte is the sentinel 255. -/
def set_bootloader_message (p : MiscPartition) (f : MiscFaults)
    (rec : List Nat) : Option (MiscPartition × List Nat) :=
  if f.findOk = false then none
  else if f.openReadOk = false then none
  else
    let size := p.writeSize * MISC_PAGES
    if f.readBytes size ≠ size then none
    else
      let data := overlayAt (p.contents.take size) (p.writeSize * MISC_COMMAND_PAGE) rec
      if f.openWriteOk = false then none
      else if f.writeFullOk = false then none
      else if f.closeOk = false then none
      else some (⟨p.writeSize, data⟩, if rec.head? ≠ some 255 then rec else [])

/-- `struct update_header` (bootloader.c lines 135-153).  The magic is kept
as bytes; the remaining `unsigned` fields as natural numbers below `2^32`
(every assignment from a signed value goes through `wrap32`). -/
structure update_header where
  magic : List Nat
  version : Nat
  size : Nat
  image_offset : Nat
  image_length : Nat
  bitmap_width : Nat
  bitmap_height : Nat
  bitmap_bpp : Nat
  busy_bitmap_offset : Nat
  busy_bitmap_length : Nat
  fail_bitmap_offset : Nat
  fail_bitmap_length : Nat
  deriving DecidableEq, Repr

/-- The header after `memset(&header, 0, sizeof(header))`. -/
def zeroHeader : update_header :=
  ⟨List.replicate UPDATE_MAGIC_SIZE 0, 0, 0, 0, 0, 0, 0, 0, 0, 0, 0, 0⟩

/-- `(bitmap_bpp + 7) / 8 * bitmap_width * bitmap_height`
(bootloader.c line 224; the claims only exercise non-negative values, where
C `int` division and truncated natural division agree). -/
def bitmap_length (bpp w h : Nat) : Nat := (bpp + 7) / 8 * w * h

/-- Observable events of one `write_update_for_bootloader` run on the cache
partition.  Write events record the session position at which the write
lands and are emitted only when the write succeeds in full; a failed
`mtd_write_data` is recorded as `failedWrite` with no disk effect (the
primitive is modelled as atomic at this granularity).  `useAfterClose` marks
any MTD call issued on a session that has already been closed (undefined
behaviour in the C code: the context is freed by `mtd_write_close`).
The `logFile` events record the `fseek`/`fread`/`fclose` calls on the log
source handle, flagged with whether that handle was NULL (failed `fopen`). -/
inductive MEvent where
  | openSession : MEvent
  | closeSession : MEvent
  | erase (result : Int) : MEvent
  | zeroHeaderWrite (pos : Nat) : MEvent
  | placeholderWrite (pos : Nat) : MEvent
  | payloadWrite (pos : Nat) (len : Nat) : MEvent
  | bitmapWrite (pos : Nat) (isFailBitmap : Bool) (fromNull : Bool) (len : Nat) : MEvent
  | realHeaderWrite (pos : Nat) (hdr : update_header) : MEvent
  | logBlockWrite (pos : Nat) (len : Nat) : MEvent
  | failedWrite : MEvent
  | useAfterClose : MEvent
  | logFileSeek (onNull : Bool) : MEvent
  | logFileRead (onNull : Bool) (len : Nat) : MEvent
  | logFileClose (onNull : Bool) : MEvent
  deriving DecidableEq, Repr

/-- Observable behaviour of the external MTD/stdio primitives during one
`write_update_for_bootloader` call on the cache partition: whether the
partition is found, the result of the k-th session open, the offset returned
by the k-th `mtd_erase_blocks` call (`-1` is the primitive's failure
sentinel), whether the k-th `mtd_write_data` writes the requested length in
full, the position `mtd_find_write_start` resolves a given first-pass offset
to, the result of the k-th `mtd_write_close`, the `mtd_partition_info`
result and erase-block size used by the log step, whether `fopen` of the log
file succeeds, and how many bytes `fread` can deliver. -/
structure CacheOracle where
  findOk : Bool
  openOk : Nat → Bool
  eraseResult : Nat → Int
  writeOk : Nat → Bool
  findWriteStart : Int → Int
  closeOk : Nat → Bool
  partInfoOk : Bool
  eraseSize : Nat
  fopenOk : Bool
  freadLen : Nat

/-- Running state of a write session: current byte position, indices of the
next erase/write/close primitive call, whether the session has been closed,
and the event trace so far. -/
structure WSt where
  pos : Nat
  eIdx : Nat
  wIdx : Nat
  cIdx : Nat
  closed : Bool
  trace : List MEvent

/-- Append an event to the trace. -/
def WSt.emit (s : WSt) (e : MEvent) : WSt := { s with trace := s.trace ++ [e] }

/-- `mtd_write_partition`: open the k-th write session at position 0. -/
def mtd_write_partition (o : CacheOracle) (k : Nat) (s : WSt) : Bool × WSt :=
  if o.openOk k then (true, { s.emit .openSession with pos := 0, closed := false })
  else (false, s)

/-- `mtd_erase_blocks(write, 0)`: pad forward to a block boundary and return
the resulting offset, `-1` on failure (in which case the position is
unchanged). -/
def mtd_erase_blocks (o : CacheOracle) (s : WSt) : Int × WSt :=
  let r := o.eraseResult s.eIdx
  let s1 := { s with eIdx := s.eIdx + 1 }
  let s2 := if s1.closed then s1.emit .useAfterClose else s1
  let s3 := s2.emit (.erase r)
  (r, { s3 with pos := if 0 ≤ r then r.toNat else s3.pos })

/-- `mtd_write_data(write, buf, len) == len`: the k-th data write.  On
success the event built from the landing position is emitted and the
position advances by `len`; on failure only `failedWrite` is recorded. -/
def mtd_write_data (o : CacheOracle) (s : WSt) (len : Nat)
    (ev : Nat → MEvent) : Bool × WSt :=
  let ok := o.writeOk s.wIdx
  let s1 := { s with wIdx := s.wIdx + 1 }
  let s2 := if s1.closed then s1.emit .useAfterClose else s1
  if ok then (true, { s2.emit (ev s2.pos) with pos := s2.pos + len })
  else (false, s2.emit .failedWrite)

/-- `mtd_write_close(write)`: the k-th close; the context is gone afterwards
whatever the result. -/
def mtd_write_close (o : CacheOracle) (s : WSt) : Bool × WSt :=
  let ok := o.closeOk s.cIdx
  let s1 := if s.closed then s.emit .useAfterClose else s
  (ok, { s1.emit .closeSession with cIdx := s.cIdx + 1, closed := true })

/-- `ptr != NULL ? len : 0`: the length recorded in the header for a bitmap
region, 0 when the bitmap pointer is null. -/
def recorded_length (b : Option (List Nat)) (len : Nat) : Nat :=
  match b with
  | some _ => len
  | none => 0

/-- Result of one `write_update_for_bootloader` run: the C return value, the
event trace, the final in-memory header, and two ghost observations used to
state the claims: `imageStart` is `image_start_pos` (the offset the
pre-payload `mtd_erase_blocks` of the first pass returned, line 209) and
`finalAlign` is the offset the verification `mtd_erase_blocks` of the second
pass returned (line 304), when reached. -/
structure UpdateRun where
  ret : Int
  trace : List MEvent
  header : update_header
  imageStart : Int
  finalAlign : Option Int
  deriving Repr

/-- Lines 304-316 of bootloader.c: the final alignment verification against
`image_start_pos` and the final `mtd_write_close`. -/
def wubFinalize (o : CacheOracle) (s : WSt) (hdr : update_header)
    (imageStart : Int) : UpdateRun :=
  let r1 := mtd_erase_blocks o s
  if r1.1 ≠ imageStart then
    let r2 := mtd_write_close o r1.2
    ⟨-1, r2.2.trace, hdr, imageStart, some r1.1⟩
  else
    let r2 := mtd_write_close o r1.2
    if r2.1 = false then ⟨-1, r2.2.trace, hdr, imageStart, some r1.1⟩
    else ⟨0, r2.2.trace, hdr, imageStart, some r1.1⟩

/-- Lines 272-302 of bootloader.c: the log-capture step of the second pass.
`mtd_partition_info` failure aborts with -1.  When the erase size is
positive the log file is opened and then seeked, read and closed without any
check of the `fopen` result; `fread` delivers at most the requested
`erase_size - sizeof(size_t) - LOG_MAGIC_SIZE` bytes.  A failed log-block
write is only logged — but the C code then closes the write session and
falls through to the finalization that still uses it. -/
def wubLogCapture (o : CacheOracle) (s : WSt) (hdr : update_header)
    (imageStart : Int) : UpdateRun :=
  if o.partInfoOk = false then
    let r := mtd_write_close o s
    ⟨-1, r.2.trace, hdr, imageStart, none⟩
  else
    let r0 := mtd_erase_blocks o s
    if 0 < o.eraseSize then
      let onNull := o.fopenOk = false
      let s1 := (r0.2.emit (.logFileSeek onNull)).emit
        (.logFileRead onNull (min o.freadLen (o.eraseSize - SIZEOF_SIZE_T - LOG_MAGIC_SIZE)))
      let s2 := s1.emit (.logFileClose onNull)
      let r1 := mtd_write_data o s2 o.eraseSize (fun p => .logBlockWrite p o.eraseSize)
      let s3 := if r1.1 = false then (mtd_write_close o r1.2).2 else r1.2
      wubFinalize o s3 hdr imageStart
    else
      wubFinalize o r0.2 hdr imageStart

/-- Error-path epilogue `mtd_write_close(write); return -1;` shared by the
failure branches of the writer. -/
def failAndClose (o : CacheOracle) (s : WSt) (hdr : update_header)
    (imageStart : Int) : UpdateRun :=
  let r := mtd_write_close o s
  ⟨-1, r.2.trace, hdr, imageStart, none⟩

/-- Intermediate state between the regions of the first pass: the session,
the header under construction, the ghost `image_start_pos`, and the erase
offset that preceded the region about to have its offset resolved
(`image_start_pos`, `busy_start_pos` or `fail_start_pos` in the C code). -/
structure P1St where
  s : WSt
  hdr : update_header
  imageStart : Int
  prevStart : Int

/-- Lines 209-218 of bootloader.c: erase-align, record `image_start_pos`,
the (stale) sentinel test of `header.image_offset`, the payload write, the
erase-align that yields `busy_start_pos`, and the resolution of
`header.image_offset` via `mtd_find_write_start`. -/
def wubPayload (o : CacheOracle) (u : List Nat) (s : WSt) (hdr : update_header) :
    Except UpdateRun P1St :=
  let r0 := mtd_erase_blocks o s
  let imageStart := r0.1
  let hdr := { hdr with image_length := u.length }
  if hdr.image_offset = wrap32 (-1) then .error (failAndClose o r0.2 hdr imageStart)
  else
    let r1 := mtd_write_data o r0.2 u.length (fun p => .payloadWrite p u.length)
    if r1.1 = false then .error (failAndClose o r1.2 hdr imageStart)
    else
      let r2 := mtd_erase_blocks o r1.2
      let hdr := { hdr with image_offset := wrap32 (o.findWriteStart imageStart) }
      .ok ⟨r2.2, hdr, imageStart, r2.1⟩

/-- Lines 226-237 of bootloader.c: record the busy-bitmap length (0 when the
pointer is null), the (stale) sentinel test of `header.busy_bitmap_offset`,
the `bitmap_length`-byte write (issued from the null pointer when no bitmap
was supplied), the erase-align that yields `fail_start_pos`, and the
resolution of `header.busy_bitmap_offset` from `busy_start_pos`. -/
def wubBusyBitmap (o : CacheOracle) (busy : Option (List Nat)) (blen : Nat)
    (st : P1St) : Except UpdateRun P1St :=
  let hdr := { st.hdr with busy_bitmap_length := recorded_length busy blen }
  if hdr.busy_bitmap_offset = wrap32 (-1) then
    .error (failAndClose o st.s hdr st.imageStart)
  else
    let r3 := mtd_write_data o st.s blen (fun p => .bitmapWrite p false busy.isNone blen)
    if r3.1 = false then .error (failAndClose o r3.2 hdr st.imageStart)
    else
      let r4 := mtd_erase_blocks o r3.2
      let hdr := { hdr with busy_bitmap_offset := wrap32 (o.findWriteStart st.prevStart) }
      .ok ⟨r4.2, hdr, st.imageStart, r4.1⟩

/-- Lines 239-249 of bootloader.c: the same pattern for the fail bitmap. -/
def wubFailBitmap (o : CacheOracle) (fail : Option (List Nat)) (blen : Nat)
    (st : P1St) : Except UpdateRun P1St :=
  let hdr := { st.hdr with fail_bitmap_length := recorded_length fail blen }
  if hdr.fail_bitmap_offset = wrap32 (-1) then
    .error (failAndClose o st.s hdr st.imageStart)
  else
    let r5 := mtd_write_data o st.s blen (fun p => .bitmapWrite p true fail.isNone blen)
    if r5.1 = false then .error (failAndClose o r5.2 hdr st.imageStart)
    else
      let r6 := mtd_erase_blocks o r5.2
      let hdr := { hdr with fail_bitmap_offset := wrap32 (o.findWriteStart st.prevStart) }
      .ok ⟨r6.2, hdr, st.imageStart, r6.1⟩

/-- Lines 251-270 of bootloader.c: close the first-pass session, reopen the
partition, and write the finalized header; then hand over to the log-capture
step (when a log source was supplied) or directly to the finalization. -/
def wubHeaderRewrite (o : CacheOracle) (hasLog : Bool) (st : P1St) : UpdateRun :=
  let r7 := mtd_write_close o st.s
  if r7.1 = false then ⟨-1, r7.2.trace, st.hdr, st.imageStart, none⟩
  else
    let r8 := mtd_write_partition o 1 r7.2
    if r8.1 = false then ⟨-1, r8.2.trace, st.hdr, st.imageStart, none⟩
    else
      let r9 := mtd_write_data o r8.2 HEADER_SIZE (fun p => .realHeaderWrite p st.hdr)
      if r9.1 = false then failAndClose o r9.2 st.hdr st.imageStart
      else if hasLog then wubLogCapture o r9.2 st.hdr st.imageStart
      else wubFinalize o r9.2 st.hdr st.imageStart

/-- Lines 209-270 of bootloader.c: the payload and both bitmap regions of
the first pass followed by the close/reopen and the real-header write,
composed from the step functions above. -/
def wubPassOne (o : CacheOracle) (update : List Nat)
    (bw bh bpp : Nat) (busy fail : Option (List Nat)) (hasLog : Bool)
    (s : WSt) (hdr : update_header) : UpdateRun :=
  match wubPayload o update s hdr with
  | .error r => r
  | .ok st1 =>
    let hdr1 := { st1.hdr with bitmap_width := bw, bitmap_height := bh, bitmap_bpp := bpp }
    let blen := bitmap_length bpp bw bh
    match wubBusyBitmap o busy blen ⟨st1.s, hdr1, st1.imageStart, st1.prevStart⟩ with
    | .error r => r
    | .ok st2 =>
      match wubFailBitmap o fail blen st2 with
      | .error r => r
      | .ok st3 => wubHeaderRewrite o hasLog st3

/-- `write_update_for_bootloader` (bootloader.c lines 155-317), translated
statement-for-statement against a `CacheOracle`.  `update` is the payload
bytes (`update_length = update.length`), `busy`/`fail` are the optional
bitmap pointers, `hasLog` is `log_filename != NULL`. -/
def write_update_for_bootloader (o : CacheOracle) (update : List Nat)
    (bw bh bpp : Nat) (busy fail : Option (List Nat)) (hasLog : Bool) : UpdateRun :=
  if o.findOk = false then ⟨-1, [], zeroHeader, 0, none⟩
  else
    let s0 : WSt := ⟨0, 0, 0, 0, true, []⟩
    let r0 := mtd_write_partition o 0 s0
    if r0.1 = false then ⟨-1, r0.2.trace, zeroHeader, 0, none⟩
    else
      let hdr := zeroHeader
      let r1 := mtd_write_data o r0.2 HEADER_SIZE (fun p => .zeroHeaderWrite p)
      if r1.1 = false then
        let r := mtd_write_close o r1.2
        ⟨-1, r.2.trace, hdr, 0, none⟩
      else
        let hdr := { hdr with magic := UPDATE_MAGIC, version := UPDATE_VERSION,
                              size := HEADER_SIZE }
        if hasLog then
          let r2 := mtd_erase_blocks o r1.2
          let r3 := mtd_write_data o r2.2 1 (fun p => .placeholderWrite p)
          if r3.1 = false then
            let r := mtd_write_close o r3.2
            ⟨-1, r.2.trace, hdr, 0, none⟩
          else wubPassOne o update bw bh bpp busy fail hasLog r3.2 hdr
        else wubPassOne o update bw bh bpp busy fail hasLog r1.2 hdr

/-- Byte view of a disk-write event, as far as the claims observe it: the
landing position and the written bytes.  Only the magic bytes of the header
writes are positionally meaningful; payload/bitmap/log content and the
serialization of the numeric header fields (whose byte order the spec leaves
explicitly unspecified) are rendered as the fixed junk byte 238, which is
conservative for the all-zero-magic property: if such a write overlapped the
magic region the replay would show a nonzero region.  Non-write events have
no byte view. -/
def event_bytes : MEvent → Option (Nat × List Nat)
  | .zeroHeaderWrite p => some (p, List.replicate HEADER_SIZE 0)
  | .placeholderWrite p => some (p, [UPDATE_MAGIC.headD 0])
  | .payloadWrite p n => some (p, List.replicate n 238)
  | .bitmapWrite p _ _ n => some (p, List.replicate n 238)
  | .realHeaderWrite p h =>
      some (p, h.magic ++ List.replicate (HEADER_SIZE - UPDATE_MAGIC_SIZE) 238)
  | .logBlockWrite p n => some (p, List.replicate n 238)
  | _ => none

/-- Effect of one positioned write on the first `UPDATE_MAGIC_SIZE` bytes of
the partition (the on-disk magic field). -/
def magicStep (m : List Nat) (pd : Nat × List Nat) : List Nat :=
  if UPDATE_MAGIC_SIZE ≤ pd.1 then m
  else (m.take pd.1 ++ pd.2 ++ m.drop (pd.1 + pd.2.length)).take UPDATE_MAGIC_SIZE

/-- Fold one event into the magic-region view. -/
def magicFold (m : List Nat) (e : MEvent) : List Nat :=
  match event_bytes e with
  | some pd => magicStep m pd
  | none => m

/-- The on-disk magic region after replaying a trace over a partition whose
magic region initially reads all-zero. -/
def magicAfter (tr : List MEvent) : List Nat :=
  tr.foldl magicFold (List.replicate UPDATE_MAGIC_SIZE 0)

/-- Whether an event is the write of the finalized (valid-magic) header. -/
def MEvent.isRealHeaderWrite : MEvent → Bool
  | .realHeaderWrite _ _ => true
  | _ => false

/-- An event that cannot turn an all-zero on-disk magic region nonzero:
either it writes nothing, or it writes only zeros over the region, or it
lands entirely past the magic region. -/
def keepsMagicZero : MEvent → Bool
  | .zeroHeaderWrite _ => true
  | .placeholderWrite p => decide (UPDATE_MAGIC_SIZE ≤ p)
  | .payloadWrite p _ => decide (UPDATE_MAGIC_SIZE ≤ p)
  | .bitmapWrite p _ _ _ => decide (UPDATE_MAGIC_SIZE ≤ p)
  | .realHeaderWrite _ _ => false
  | .logBlockWrite p _ => decide (UPDATE_MAGIC_SIZE ≤ p)
  | _ => true

/-- An event the header-discipline invariant allows in a trace: it keeps an
all-zero magic region zero, or it is the final header write itself. -/
def goodEvent (e : MEvent) : Prop :=
  keepsMagicZero e = true ∨ e.isRealHeaderWrite = true

/-- A fault-free misc-partition oracle. -/
def miscHealthy : MiscFaults := ⟨true, true, fun n => n, true, true, true⟩

/-- A misc-partition oracle whose `mtd_read_data` returns no bytes. -/
def miscShortRead : MiscFaults := ⟨true, true, fun _ => 0, true, true, true⟩

/-- A two-byte-page misc partition with exactly three pages of contents. -/
def miscP : MiscPartition := ⟨2, [1, 2, 3, 4, 5, 6]⟩

/-- A fault-free cache oracle: every session opens and closes, every write
goes through in full, every erase lands at offset 64, `mtd_find_write_start`
is the identity, the erase-block size is 128 and the log file opens with 10
readable bytes. -/
def oracleHealthy : CacheOracle :=
  ⟨true, fun _ => true, fun _ => 64, fun _ => true, fun z => z,
   fun _ => true, true, 128, true, 10⟩

/-- Like `oracleHealthy`, except that the `mtd_erase_blocks` calls before
the payload write and at the final alignment check (erase calls 0 and 4 of a
no-log run) both return the failure sentinel `-1`. -/
def oracleSentinelErase : CacheOracle :=
  { oracleHealthy with eraseResult := fun k => if k = 0 ∨ k = 4 then -1 else 64 }

/-- Like `oracleHealthy`, except that the log-block write (data write 6 of a
with-log run) fails. -/
def oracleLogWriteFails : CacheOracle :=
  { oracleHealthy with writeOk := fun k => if k = 6 then false else true }

/-- Like `oracleHealthy`, except that the final `mtd_write_close` (close 1
of a no-log run) fails. -/
def oracleFinalCloseFails : CacheOracle :=
  { oracleHealthy with closeOk := fun k => if k = 1 then false else true }

/-- Like `oracleHealthy`, except that `fopen` of the log file fails. -/
def oracleLogOpenFails : CacheOracle := { oracleHealthy with fopenOk := false }

/-- Overlaying inside the buffer preserves its length. -/
theorem overlayAt_length (buf src : List Nat) (off : Nat)
    (h : off + src.length ≤ buf.length) :
    (overlayAt buf off src).length = buf.length := by
  unfold overlayAt
  simp [List.length_take, List.length_drop]
  omega

/-- Bytes before the overlay window are untouched. -/
theorem overlayAt_take_front (buf src : List Nat) (off : Nat) (h : off ≤ buf.length) :
    (overlayAt buf off src).take off = buf.take off := by
  have hA : (buf.take off).length = off := by simp [List.length_take]; omega
  unfold overlayAt
  rw [List.append_assoc]
  rw [List.take_append_of_le_length (by rw [hA])]
  simp [List.take_take]

/-- Reading the overlay window back yields the overlaid bytes. -/
theorem overlayAt_extract (buf src : List Nat) (off : Nat) (h : off ≤ buf.length) :
    ((overlayAt buf off src).drop off).take src.length = src := by
  have hA : (buf.take off).length = off := by simp [List.length_take]; omega
  unfold overlayAt
  rw [List.append_assoc]
  have h1 := List.drop_left (buf.take off) (src ++ buf.drop (off + src.length))
  rw [hA] at h1
  rw [h1]
  exact List.take_left src _

/-- Bytes from any point past the overlay window are untouched. -/
theorem overlayAt_drop_ge (buf src : List Nat) (off n : Nat)
    (h : off + src.length ≤ n) (hoff : off ≤ buf.length) :
    (overlayAt buf off src).drop n = buf.drop n := by
  have hA : (buf.take off).length = off := by simp [List.length_take]; omega
  unfold overlayAt
  rw [List.append_assoc, List.drop_append_eq_append_drop, hA]
  rw [List.drop_of_length_le (by rw [hA]; omega)]
  rw [List.drop_append_eq_append_drop]
  rw [List.drop_of_length_le (by omega)]
  simp only [List.nil_append, List.drop_drop]
  have : off + src.length + (n - off - src.length) = n := by omega
  rw [this]

/-- C4: a successful `set_bootloader_message` of a record `rec` followed by a
`get_bootloader_message` (under fault-free read conditions) returns a record
equal to `rec`, and the bytes of page 0 and page 2 of the three-page region
are unchanged from before the set call.  The record must fit in one page
(`sizeof(struct bootloader_message)` is 1088 bytes against a NAND page of
2048), and the region is exactly three pages as the spec requires. -/
theorem c4_set_get_roundtrip (p : MiscPartition) (f g : MiscFaults) (rec : List Nat)
    (out : MiscPartition × List Nat)
    (hlen : p.contents.length = p.writeSize * MISC_PAGES)
    (hfit : rec.length ≤ p.writeSize)
    (hset : set_bootloader_message p f rec = some out)
    (hg1 : g.findOk = true) (hg2 : g.openReadOk = true)
    (hg3 : g.readBytes (out.1.writeSize * MISC_PAGES) = out.1.writeSize * MISC_PAGES) :
    get_bootloader_message rec.length out.1 g = some rec ∧
    out.1.contents.take p.writeSize = p.contents.take p.writeSize ∧
    out.1.contents.drop (p.writeSize * 2) = p.contents.drop (p.writeSize * 2) := by
  have hout : out.1 = MiscPartition.mk p.writeSize
      (overlayAt (p.contents.take (p.writeSize * MISC_PAGES))
        (p.writeSize * MISC_COMMAND_PAGE) rec) := by
    obtain ⟨ff, fo, fr, fw, fwf, fc⟩ := f
    by_cases hr : fr (p.writeSize * MISC_PAGES) = p.writeSize * MISC_PAGES <;>
      cases ff <;> cases fo <;> cases fw <;> cases fwf <;> cases fc <;>
        simp_all [set_bootloader_message] <;> rw [← hset]
  have htake : p.contents.take (p.writeSize * MISC_PAGES) = p.contents :=
    List.take_of_length_le (by omega)
  rw [htake] at hout
  simp only [MISC_PAGES, MISC_COMMAND_PAGE, mul_one] at hlen hg3 hout ⊢
  have hol : (overlayAt p.contents p.writeSize rec).length = p.writeSize * 3 :=
    (overlayAt_length p.contents rec p.writeSize (by omega)).trans hlen
  refine ⟨?_, ?_, ?_⟩
  · rw [hout] at hg3
    simp only at hg3
    unfold get_bootloader_message
    rw [hout]
    simp only [MISC_PAGES, MISC_COMMAND_PAGE, mul_one] at hg3 ⊢
    simp [hg1, hg2, hg3]
    have hTA : List.take (p.writeSize * 3) (overlayAt p.contents p.writeSize rec)
        = overlayAt p.contents p.writeSize rec := List.take_of_length_le (by rw [hol])
    rw [hTA]
    exact overlayAt_extract p.contents rec p.writeSize (by omega)
  · rw [hout]
    exact overlayAt_take_front _ _ _ (by omega)
  · rw [hout]
    exact overlayAt_drop_ge _ _ _ _ (by omega) (by omega)

/-- Witness for C4 at a concrete partition, record and fault-free oracle. -/
theorem c4_set_get_roundtrip_witness :
    set_bootloader_message miscP miscHealthy [9]
        = some (MiscPartition.mk 2 [1, 2, 9, 4, 5, 6], [9]) ∧
    get_bootloader_message 1
        ((MiscPartition.mk 2 [1, 2, 9, 4, 5, 6], ([9] : List Nat)) : MiscPartition × List Nat).1
        miscHealthy = some [9] ∧
    ((MiscPartition.mk 2 [1, 2, 9, 4, 5, 6], ([9] : List Nat)) : MiscPartition × List Nat).1.contents.take
        miscP.writeSize = miscP.contents.take miscP.writeSize ∧
    ((MiscPartition.mk 2 [1, 2, 9, 4, 5, 6], ([9] : List Nat)) : MiscPartition × List Nat).1.contents.drop
        (miscP.writeSize * 2) = miscP.contents.drop (miscP.writeSize * 2) :=
  ⟨by decide,
   (c4_set_get_roundtrip miscP miscHealthy miscHealthy [9]
      (MiscPartition.mk 2 [1, 2, 9, 4, 5, 6], [9])
      (by decide) (by decide) (by decide) rfl rfl (by decide)).1,
   (c4_set_get_roundtrip miscP miscHealthy miscHealthy [9]
      (MiscPartition.mk 2 [1, 2, 9, 4, 5, 6], [9])
      (by decide) (by decide) (by decide) rfl rfl (by decide)).2.1,
   (c4_set_get_roundtrip miscP miscHealthy miscHealthy [9]
      (MiscPartition.mk 2 [1, 2, 9, 4, 5, 6], [9])
      (by decide) (by decide) (by decide) rfl rfl (by decide)).2.2⟩

/-- C5: if `mtd_read_data` returns fewer than `page_size * 3` bytes,
`get_bootloader_message` fails and discards the buffer, whatever the other
primitives signalled: a short read is never returned as success. -/
theorem c5_short_read_fails (msgSize : Nat) (p : MiscPartition) (f : MiscFaults)
    (hshort : f.readBytes (p.writeSize * MISC_PAGES) < p.writeSize * MISC_PAGES) :
    get_bootloader_message msgSize p f = none := by
  have h : f.readBytes (p.writeSize * MISC_PAGES) ≠ p.writeSize * MISC_PAGES := by omega
  unfold get_bootloader_message
  split_ifs with h1 h2 <;> try rfl
  simp [h]

/-- Witness for C5 at a concrete partition and short-reading oracle. -/
theorem c5_short_read_fails_witness :
    miscShortRead.readBytes (miscP.writeSize * MISC_PAGES) < miscP.writeSize * MISC_PAGES ∧
    get_bootloader_message 1 miscP miscShortRead = none :=
  ⟨by decide, c5_short_read_fails 1 miscP miscShortRead (by decide)⟩

/-- C8: the byte length computed for each bitmap equals
`ceil(bpp / 8) * width * height` — stated both with natural ceiling division
(`⌈/⌉`) and with the ceiling of the exact rational quotient; this covers in
particular every bpp in {1, 8, 16, 24, 32}. -/
theorem c8_bitmap_length_formula (bpp w h : Nat) :
    bitmap_length bpp w h = bpp ⌈/⌉ 8 * w * h ∧
    bitmap_length bpp w h = ⌈(bpp : ℚ) / 8⌉₊ * w * h := by
  have hceil : ⌈(bpp : ℚ) / 8⌉₊ = (bpp + 7) / 8 := by
    rcases Nat.eq_zero_or_pos bpp with h0 | hpos
    · subst h0; simp
    · have hne : (bpp + 7) / 8 ≠ 0 := by omega
      rw [Nat.ceil_eq_iff hne]
      have h1 : ((bpp + 7) / 8 - 1) * 8 < bpp := by omega
      have h2 : bpp ≤ (bpp + 7) / 8 * 8 := by omega
      constructor
      · rw [lt_div_iff₀ (by norm_num : (0:ℚ) < 8)]
        exact_mod_cast h1
      · rw [div_le_iff₀ (by norm_num : (0:ℚ) < 8)]
        exact_mod_cast h2
  have h78 : bpp + 8 - 1 = bpp + 7 := by omega
  constructor
  · rw [Nat.ceilDiv_eq_add_pred_div, h78]; rfl
  · rw [hceil]; rfl

/-- C9: the informational log line emitted by a `set_bootloader_message`
that reaches its final step carries the record's command field, and an empty
string is substituted exactly when the first command byte is the sentinel
255. -/
theorem c9_command_log_substitution (p : MiscPartition) (f : MiscFaults)
    (rec : List Nat) (out : MiscPartition × List Nat)
    (hset : set_bootloader_message p f rec = some out) :
    (rec.head? = some 255 → out.2 = []) ∧ (rec.head? ≠ some 255 → out.2 = rec) := by
  obtain ⟨ff, fo, fr, fw, fwf, fc⟩ := f
  by_cases hr : fr (p.writeSize * MISC_PAGES) = p.writeSize * MISC_PAGES <;>
    cases ff <;> cases fo <;> cases fw <;> cases fwf <;> cases fc <;>
      simp_all [set_bootloader_message] <;>
      constructor <;> intro hh <;> simp_all <;> rw [← hset]

/-- Witness for C9 at a concrete record whose first byte is the sentinel. -/
theorem c9_command_log_substitution_witness :
    (([255, 3] : List Nat).head? = some 255 →
      ((MiscPartition.mk 2 [1, 2, 255, 3, 5, 6], ([] : List Nat)) :
        MiscPartition × List Nat).2 = []) ∧
    (([255, 3] : List Nat).head? ≠ some 255 →
      ((MiscPartition.mk 2 [1, 2, 255, 3, 5, 6], ([] : List Nat)) :
        MiscPartition × List Nat).2 = [255, 3]) :=
  c9_command_log_substitution miscP miscHealthy [255, 3]
    (MiscPartition.mk 2 [1, 2, 255, 3, 5, 6], []) (by decide)

/-- C3 (code bug): the erase-offset primitive returns the invalid sentinel
`-1` before the payload write (and again at the final alignment check), yet
`write_update_for_bootloader` returns success.  The C code's sentinel tests
read `header.image_offset`, `header.busy_bitmap_offset` and
`header.fail_bitmap_offset` before those fields are assigned — at the test
point they still hold 0 from `memset`, so the tests can never fire. -/
theorem c3_sentinel_erase_unchecked :
    (write_update_for_bootloader oracleSentinelErase [5, 6] 1 1 8
      (some [1]) (some [2]) false).ret = 0 ∧
    (write_update_for_bootloader oracleSentinelErase [5, 6] 1 1 8
      (some [1]) (some [2]) false).imageStart = -1 := by decide

/-- C6 (code bug): with a null busy bitmap, the recorded busy-bitmap length
is 0 as claimed, but the write issued for the region is a full
`bitmap_length`-byte write sourced from the null pointer (here 1 byte at
offset 64), not a zero-length write. -/
theorem c6_null_bitmap_full_length_write :
    (write_update_for_bootloader oracleHealthy [5, 6] 1 1 8 none
      (some [2]) false).ret = 0 ∧
    (write_update_for_bootloader oracleHealthy [5, 6] 1 1 8 none
      (some [2]) false).header.busy_bitmap_length = 0 ∧
    MEvent.bitmapWrite 64 false true 1 ∈
      (write_update_for_bootloader oracleHealthy [5, 6] 1 1 8 none
        (some [2]) false).trace := by decide

/-- C7 (code bug): when the log-block write fails, the code closes the write
session and then keeps issuing MTD calls on the closed (freed) session — the
run's trace contains a use-after-close, so the operation cannot cleanly
return success with the failure merely recorded. -/
theorem c7_log_failure_closes_then_uses_session :
    MEvent.useAfterClose ∈ (write_update_for_bootloader oracleLogWriteFails [5, 6] 1 1 8
      (some [1]) (some [2]) true).trace := by decide

/-- C1 (counterexample): a run in which only the final `mtd_write_close`
fails returns `-1`, yet replaying its trace leaves the correct magic in the
on-disk header region — so the header can contain the correct magic without
the operation having returned success. -/
theorem c1_counterexample_magic_without_success :
    (write_update_for_bootloader oracleFinalCloseFails [5, 6] 1 1 8
      (some [1]) (some [2]) false).ret = -1 ∧
    magicAfter (write_update_for_bootloader oracleFinalCloseFails [5, 6] 1 1 8
      (some [1]) (some [2]) false).trace = UPDATE_MAGIC := by decide

/-- A signed value already in `[0, 2^32)` survives the conversion into an
`unsigned` header field. -/
theorem wrap32_cast (v : Int) (h0 : 0 ≤ v) (h1 : v < 2 ^ 32) : (wrap32 v : Int) = v := by
  unfold wrap32
  rw [Int.emod_eq_of_lt h0 h1]
  exact Int.toNat_of_nonneg h0

/-- The finalization step returns the header it was given. -/
theorem wubFinalize_header (o : CacheOracle) (s : WSt) (hdr : update_header) (i : Int) :
    (wubFinalize o s hdr i).header = hdr := by
  simp only [wubFinalize]
  split_ifs <;> rfl

/-- The finalization step passes the ghost `image_start_pos` through. -/
theorem wubFinalize_imageStart (o : CacheOracle) (s : WSt) (hdr : update_header) (i : Int) :
    (wubFinalize o s hdr i).imageStart = i := by
  simp only [wubFinalize]
  split_ifs <;> rfl

/-- A successful finalization means its verification erase returned exactly
`image_start_pos`. -/
theorem wubFinalize_finalAlign (o : CacheOracle) (s : WSt) (hdr : update_header) (i : Int)
    (h : (wubFinalize o s hdr i).ret = 0) :
    (wubFinalize o s hdr i).finalAlign = some i := by
  simp only [wubFinalize] at h ⊢
  split_ifs at h ⊢ <;> simp_all

/-- The log-capture step returns the header it was given. -/
theorem wubLogCapture_header (o : CacheOracle) (s : WSt) (hdr : update_header) (i : Int) :
    (wubLogCapture o s hdr i).header = hdr := by
  simp only [wubLogCapture]
  split_ifs <;> first | exact wubFinalize_header _ _ _ _ | rfl

/-- The log-capture step passes the ghost `image_start_pos` through. -/
theorem wubLogCapture_imageStart (o : CacheOracle) (s : WSt) (hdr : update_header) (i : Int) :
    (wubLogCapture o s hdr i).imageStart = i := by
  simp only [wubLogCapture]
  split_ifs <;> first | exact wubFinalize_imageStart _ _ _ _ | rfl

/-- A successful run through the log-capture step still verifies the final
erase offset against `image_start_pos`. -/
theorem wubLogCapture_finalAlign (o : CacheOracle) (s : WSt) (hdr : update_header) (i : Int)
    (h : (wubLogCapture o s hdr i).ret = 0) :
    (wubLogCapture o s hdr i).finalAlign = some i := by
  simp only [wubLogCapture] at h ⊢
  split_ifs at h ⊢ <;>
    first
      | exact wubFinalize_finalAlign _ _ _ _ h
      | simp_all

/-- The payload step either fails with -1, or records in
`header.image_offset` the `mtd_find_write_start` resolution of the erase
offset that preceded the payload write. -/
theorem wubPayload_cases (o : CacheOracle) (u : List Nat) (s : WSt) (hdr : update_header) :
    (∃ r, wubPayload o u s hdr = .error r ∧ r.ret = -1) ∨
    (∃ st, wubPayload o u s hdr = .ok st ∧
      st.imageStart = o.eraseResult s.eIdx ∧
      st.hdr.image_offset = wrap32 (o.findWriteStart (o.eraseResult s.eIdx))) := by
  simp only [wubPayload]
  split_ifs <;>
    first
      | exact Or.inl ⟨_, rfl, rfl⟩
      | exact Or.inr ⟨_, rfl, rfl, rfl⟩

/-- The busy-bitmap step either fails with -1 or leaves `image_start_pos`
and the recorded payload offset untouched. -/
theorem wubBusyBitmap_cases (o : CacheOracle) (busy : Option (List Nat)) (blen : Nat)
    (st : P1St) :
    (∃ r, wubBusyBitmap o busy blen st = .error r ∧ r.ret = -1) ∨
    (∃ st2, wubBusyBitmap o busy blen st = .ok st2 ∧
      st2.imageStart = st.imageStart ∧ st2.hdr.image_offset = st.hdr.image_offset) := by
  simp only [wubBusyBitmap]
  split_ifs <;>
    first
      | exact Or.inl ⟨_, rfl, rfl⟩
      | exact Or.inr ⟨_, rfl, rfl, rfl⟩

/-- The fail-bitmap step either fails with -1 or leaves `image_start_pos`
and the recorded payload offset untouched. -/
theorem wubFailBitmap_cases (o : CacheOracle) (fail : Option (List Nat)) (blen : Nat)
    (st : P1St) :
    (∃ r, wubFailBitmap o fail blen st = .error r ∧ r.ret = -1) ∨
    (∃ st2, wubFailBitmap o fail blen st = .ok st2 ∧
      st2.imageStart = st.imageStart ∧ st2.hdr.image_offset = st.hdr.image_offset) := by
  simp only [wubFailBitmap]
  split_ifs <;>
    first
      | exact Or.inl ⟨_, rfl, rfl⟩
      | exact Or.inr ⟨_, rfl, rfl, rfl⟩

/-- A successful close/reopen/header-rewrite sequence writes exactly the
first-pass header and verifies the final erase against `image_start_pos`. -/
theorem wubHeaderRewrite_ret_zero (o : CacheOracle) (hasLog : Bool) (st : P1St)
    (h : (wubHeaderRewrite o hasLog st).ret = 0) :
    (wubHeaderRewrite o hasLog st).imageStart = st.imageStart ∧
    (wubHeaderRewrite o hasLog st).header = st.hdr ∧
    (wubHeaderRewrite o hasLog st).finalAlign = some st.imageStart := by
  simp only [wubHeaderRewrite] at h ⊢
  split_ifs at h ⊢ <;>
    first
      | exact absurd h (by decide : ¬((-1 : Int) = 0))
      | exact ⟨wubLogCapture_imageStart _ _ _ _, wubLogCapture_header _ _ _ _,
               wubLogCapture_finalAlign _ _ _ _ h⟩
      | exact ⟨wubFinalize_imageStart _ _ _ _, wubFinalize_header _ _ _ _,
               wubFinalize_finalAlign _ _ _ _ h⟩

/-- A successful first pass records, as the payload offset of the header it
finalizes, the `mtd_find_write_start` resolution of the erase offset that
preceded the payload, and its verification erase returned exactly that
preceding offset. -/
theorem wubPassOne_ret_zero (o : CacheOracle) (u : List Nat)
    (bw bh bpp : Nat) (busy fail : Option (List Nat)) (hasLog : Bool)
    (s : WSt) (hdr : update_header)
    (h : (wubPassOne o u bw bh bpp busy fail hasLog s hdr).ret = 0) :
    (wubPassOne o u bw bh bpp busy fail hasLog s hdr).imageStart = o.eraseResult s.eIdx ∧
    (wubPassOne o u bw bh bpp busy fail hasLog s hdr).header.image_offset
        = wrap32 (o.findWriteStart (o.eraseResult s.eIdx)) ∧
    (wubPassOne o u bw bh bpp busy fail hasLog s hdr).finalAlign
        = some (o.eraseResult s.eIdx) := by
  unfold wubPassOne at h ⊢
  rcases wubPayload_cases o u s hdr with ⟨r, he, hr⟩ | ⟨st1, he, hi1, ho1⟩
  · rw [he] at h ⊢
    exact absurd (hr.symm.trans h) (by decide : ¬((-1 : Int) = 0))
  · rw [he] at h ⊢
    dsimp only at h ⊢
    rcases wubBusyBitmap_cases o busy (bitmap_length bpp bw bh)
        ⟨st1.s, { st1.hdr with bitmap_width := bw, bitmap_height := bh, bitmap_bpp := bpp },
          st1.imageStart, st1.prevStart⟩ with ⟨r, he2, hr2⟩ | ⟨st2, he2, hi2, ho2⟩
    · rw [he2] at h ⊢
      exact absurd (hr2.symm.trans h) (by decide : ¬((-1 : Int) = 0))
    · rw [he2] at h ⊢
      dsimp only at h ⊢
      rcases wubFailBitmap_cases o fail (bitmap_length bpp bw bh) st2 with
        ⟨r, he3, hr3⟩ | ⟨st3, he3, hi3, ho3⟩
      · rw [he3] at h ⊢
        exact absurd (hr3.symm.trans h) (by decide : ¬((-1 : Int) = 0))
      · rw [he3] at h ⊢
        dsimp only at h ⊢
        obtain ⟨ha, hb, hc⟩ := wubHeaderRewrite_ret_zero o hasLog st3 h
        refine ⟨?_, ?_, ?_⟩
        · rw [ha, hi3, hi2, ← hi1]
        · rw [hb, ho3, ho2, ← ho1]
        · rw [hc, hi3, hi2, ← hi1]

/-- Every `write_update_for_bootloader` run either fails with -1 before the
first pass begins or is a `wubPassOne` run from some entry state. -/
theorem write_update_cases (o : CacheOracle) (u : List Nat)
    (bw bh bpp : Nat) (busy fail : Option (List Nat)) (hasLog : Bool) :
    (write_update_for_bootloader o u bw bh bpp busy fail hasLog).ret = -1 ∨
    ∃ s2 hdr2, write_update_for_bootloader o u bw bh bpp busy fail hasLog
        = wubPassOne o u bw bh bpp busy fail hasLog s2 hdr2 := by
  simp only [write_update_for_bootloader]
  split_ifs <;>
    first
      | exact Or.inl rfl
      | exact Or.inr ⟨_, _, rfl⟩

/-- C2: on every successful `write_update_for_bootloader` run, the payload
offset recorded in the final header equals the true write-start position the
offset primitive reported for the first pass (`mtd_find_write_start` of
`image_start_pos`, assumed to fit the 32-bit header field), and the second
pass's erase-align returned exactly the first pass's `image_start_pos` — a
differing offset makes the run fail instead of returning success. -/
theorem c2_payload_offset_alignment (o : CacheOracle) (u : List Nat)
    (bw bh bpp : Nat) (busy fail : Option (List Nat)) (hasLog : Bool)
    (hret : (write_update_for_bootloader o u bw bh bpp busy fail hasLog).ret = 0)
    (hlo : 0 ≤ o.findWriteStart
        (write_update_for_bootloader o u bw bh bpp busy fail hasLog).imageStart)
    (hhi : o.findWriteStart
        (write_update_for_bootloader o u bw bh bpp busy fail hasLog).imageStart < 2 ^ 32) :
    ((write_update_for_bootloader o u bw bh bpp busy fail hasLog).header.image_offset : Int)
        = o.findWriteStart
            (write_update_for_bootloader o u bw bh bpp busy fail hasLog).imageStart ∧
    (write_update_for_bootloader o u bw bh bpp busy fail hasLog).finalAlign
        = some (write_update_for_bootloader o u bw bh bpp busy fail hasLog).imageStart := by
  rcases write_update_cases o u bw bh bpp busy fail hasLog with hc | ⟨s2, hdr2, heq⟩
  · rw [hc] at hret
    exact absurd hret (by decide : ¬((-1 : Int) = 0))
  · rw [heq] at hret hlo hhi ⊢
    obtain ⟨hi, ho, hf⟩ := wubPassOne_ret_zero o u bw bh bpp busy fail hasLog s2 hdr2 hret
    rw [hi] at hlo hhi ⊢
    rw [ho, hf]
    exact ⟨wrap32_cast _ hlo hhi, rfl⟩

/-- Witness for C2 on a fault-free run. -/
theorem c2_payload_offset_alignment_witness :
    (write_update_for_bootloader oracleHealthy [5, 6] 1 1 8 (some [1])
        (some [2]) false).ret = 0 ∧
    (((write_update_for_bootloader oracleHealthy [5, 6] 1 1 8 (some [1])
        (some [2]) false).header.image_offset : Int)
      = oracleHealthy.findWriteStart
          (write_update_for_bootloader oracleHealthy [5, 6] 1 1 8 (some [1])
            (some [2]) false).imageStart ∧
    (write_update_for_bootloader oracleHealthy [5, 6] 1 1 8 (some [1])
        (some [2]) false).finalAlign
      = some (write_update_for_bootloader oracleHealthy [5, 6] 1 1 8 (some [1])
            (some [2]) false).imageStart) :=
  ⟨by decide,
   c2_payload_offset_alignment oracleHealthy [5, 6] 1 1 8 (some [1]) (some [2]) false
     (by decide) (by decide) (by decide)⟩

/-- The `unsigned`-field pattern produced by casting the sentinel `-1`. -/
theorem wrap32_neg_one : wrap32 (-1) = 4294967295 := by decide

set_option maxHeartbeats 2000000 in
/-- C10: in a run with a log source and a positive erase size that reaches
the log-capture step (all writes, opens and closes succeeding), a failed
`fopen` of the log file does not divert control: the handle is still passed
to `fseek`, `fread` and `fclose` (the trace carries all three operations on
the null handle), because the code has no error branch for an unopenable
log file. -/
theorem c10_log_open_unchecked (o : CacheOracle) (u : List Nat)
    (bw bh bpp : Nat) (busy fail : Option (List Nat))
    (hF : o.findOk = true) (hO : ∀ k, o.openOk k = true)
    (hW : ∀ k, o.writeOk k = true) (hC : ∀ k, o.closeOk k = true)
    (hP : o.partInfoOk = true) (hE : 0 < o.eraseSize) (hfo : o.fopenOk = false) :
    MEvent.logFileSeek true ∈
      (write_update_for_bootloader o u bw bh bpp busy fail true).trace ∧
    MEvent.logFileRead true
        (min o.freadLen (o.eraseSize - SIZEOF_SIZE_T - LOG_MAGIC_SIZE)) ∈
      (write_update_for_bootloader o u bw bh bpp busy fail true).trace ∧
    MEvent.logFileClose true ∈
      (write_update_for_bootloader o u bw bh bpp busy fail true).trace := by
  simp [write_update_for_bootloader, wubPassOne, wubPayload, wubBusyBitmap,
    wubFailBitmap, wubHeaderRewrite, wubLogCapture, wubFinalize, failAndClose,
    mtd_write_partition, mtd_write_data, mtd_erase_blocks, mtd_write_close, WSt.emit,
    zeroHeader, wrap32_neg_one, hF, hO, hW, hC, hP, hE, hfo]
  split_ifs <;> simp [List.mem_append]

/-- Witness for C10 with a concrete oracle whose log-file open fails. -/
theorem c10_log_open_unchecked_witness :
    oracleLogOpenFails.fopenOk = false ∧ 0 < oracleLogOpenFails.eraseSize ∧
    (MEvent.logFileSeek true ∈
        (write_update_for_bootloader oracleLogOpenFails [5, 6] 1 1 8 (some [1])
          (some [2]) true).trace ∧
      MEvent.logFileRead true
          (min oracleLogOpenFails.freadLen
            (oracleLogOpenFails.eraseSize - SIZEOF_SIZE_T - LOG_MAGIC_SIZE)) ∈
        (write_update_for_bootloader oracleLogOpenFails [5, 6] 1 1 8 (some [1])
          (some [2]) true).trace ∧
      MEvent.logFileClose true ∈
        (write_update_for_bootloader oracleLogOpenFails [5, 6] 1 1 8 (some [1])
          (some [2]) true).trace) :=
  ⟨rfl, by decide,
   c10_log_open_unchecked oracleLogOpenFails [5, 6] 1 1 8 (some [1]) (some [2])
     rfl (fun _ => rfl) (fun _ => rfl) (fun _ => rfl) rfl (by decide) rfl⟩

def KeepsAll (t : List MEvent) : Prop := ∀ e ∈ t, keepsMagicZero e = true

/-- Keeping the magic zero is preserved under trace concatenation. -/
theorem KeepsAll_append (t1 t2 : List MEvent) (h1 : KeepsAll t1) (h2 : KeepsAll t2) :
    KeepsAll (t1 ++ t2) := by
  intro e he
  rcases List.mem_append.1 he with h | h
  · exact h1 e h
  · exact h2 e h

/-- An erase call only appends events that keep a zero magic region zero. -/
theorem mtd_erase_blocks_trace (o : CacheOracle) (s : WSt) :
    ∃ t, (mtd_erase_blocks o s).2.trace = s.trace ++ t ∧ KeepsAll t := by
  simp only [mtd_erase_blocks, WSt.emit]
  split_ifs
  · exact ⟨[MEvent.useAfterClose, MEvent.erase (o.eraseResult s.eIdx)],
      by simp, by intro e he; fin_cases he <;> rfl⟩
  · exact ⟨[MEvent.erase (o.eraseResult s.eIdx)],
      by simp, by intro e he; fin_cases he <;> rfl⟩

/-- Under the erase-forward contract (result at least one header past the
start, or the -1 sentinel leaving the position unchanged), an erase keeps
the session position past the header region. -/
theorem mtd_erase_blocks_pos (o : CacheOracle) (s : WSt)
    (hEr : ∀ k, o.eraseResult k = -1 ∨ (HEADER_SIZE : Int) ≤ o.eraseResult k)
    (hp : HEADER_SIZE ≤ s.pos) :
    HEADER_SIZE ≤ (mtd_erase_blocks o s).2.pos := by
  simp only [mtd_erase_blocks, WSt.emit]
  rcases hEr s.eIdx with h | h <;> split_ifs <;> simp_all <;> omega

/-- A data write appends, besides benign bookkeeping events, at most the
write event itself, landing at the current session position. -/
theorem mtd_write_data_trace (o : CacheOracle) (s : WSt) (len : Nat) (ev : Nat → MEvent) :
    ∃ t, (mtd_write_data o s len ev).2.trace = s.trace ++ t ∧
      ∀ e ∈ t, keepsMagicZero e = true ∨ e = ev s.pos := by
  simp only [mtd_write_data, WSt.emit]
  split_ifs
  · exact ⟨[MEvent.useAfterClose, ev s.pos], by simp,
      by intro e he; fin_cases he <;> first | exact Or.inl rfl | exact Or.inr rfl⟩
  · exact ⟨[ev s.pos], by simp,
      by intro e he; fin_cases he <;> first | exact Or.inl rfl | exact Or.inr rfl⟩
  · exact ⟨[MEvent.useAfterClose, MEvent.failedWrite], by simp,
      by intro e he; fin_cases he <;> exact Or.inl rfl⟩
  · exact ⟨[MEvent.failedWrite], by simp,
      by intro e he; fin_cases he <;> exact Or.inl rfl⟩

/-- A successful data write records its event in the trace. -/
theorem mtd_write_data_mem (o : CacheOracle) (s : WSt) (len : Nat) (ev : Nat → MEvent)
    (h : (mtd_write_data o s len ev).1 = true) :
    ev s.pos ∈ (mtd_write_data o s len ev).2.trace := by
  simp only [mtd_write_data, WSt.emit] at h ⊢
  split_ifs at h ⊢ <;> simp_all

/-- A data write never moves the session position backwards. -/
theorem mtd_write_data_pos (o : CacheOracle) (s : WSt) (len : Nat) (ev : Nat → MEvent)
    (hp : HEADER_SIZE ≤ s.pos) :
    HEADER_SIZE ≤ (mtd_write_data o s len ev).2.pos := by
  simp only [mtd_write_data, WSt.emit]
  split_ifs <;> simp <;> omega

/-- A successful data write advances the position by the written length. -/
theorem mtd_write_data_pos_ok (o : CacheOracle) (s : WSt) (len : Nat) (ev : Nat → MEvent)
    (h : (mtd_write_data o s len ev).1 = true) :
    (mtd_write_data o s len ev).2.pos = s.pos + len := by
  simp only [mtd_write_data, WSt.emit] at h ⊢
  split_ifs at h ⊢ <;> simp_all

/-- A close only appends events that keep a zero magic region zero. -/
theorem mtd_write_close_trace (o : CacheOracle) (s : WSt) :
    ∃ t, (mtd_write_close o s).2.trace = s.trace ++ t ∧ KeepsAll t := by
  simp only [mtd_write_close, WSt.emit]
  split_ifs
  · exact ⟨[MEvent.useAfterClose, MEvent.closeSession], by simp,
      by intro e he; fin_cases he <;> rfl⟩
  · exact ⟨[MEvent.closeSession], by simp,
      by intro e he; fin_cases he <;> rfl⟩

/-- A close leaves the session position unchanged. -/
theorem mtd_write_close_pos (o : CacheOracle) (s : WSt) :
    (mtd_write_close o s).2.pos = s.pos := by
  simp only [mtd_write_close, WSt.emit]
  split_ifs <;> rfl

/-- An open only appends events that keep a zero magic region zero. -/
theorem mtd_write_partition_trace (o : CacheOracle) (k : Nat) (s : WSt) :
    ∃ t, (mtd_write_partition o k s).2.trace = s.trace ++ t ∧ KeepsAll t := by
  simp only [mtd_write_partition, WSt.emit]
  split_ifs
  · exact ⟨[MEvent.openSession], by simp, by intro e he; fin_cases he <;> rfl⟩
  · exact ⟨[], by simp, by intro e he; cases he⟩

/-- The shared failure epilogue only appends benign events. -/
theorem failAndClose_trace (o : CacheOracle) (s : WSt) (hdr : update_header) (i : Int) :
    ∃ t, (failAndClose o s hdr i).trace = s.trace ++ t ∧ KeepsAll t :=
  mtd_write_close_trace o s
/-- A successful open resets the session position to 0. -/
theorem mtd_write_partition_pos_ok (o : CacheOracle) (k : Nat) (s : WSt)
    (h : (mtd_write_partition o k s).1 = true) :
    (mtd_write_partition o k s).2.pos = 0 := by
  simp only [mtd_write_partition, WSt.emit] at h ⊢
  split_ifs at h ⊢ <;> simp_all

/-- Folding a magic-keeping event over an all-zero magic region leaves it
all-zero. -/
theorem magicFold_keeps (e : MEvent) (hk : keepsMagicZero e = true) :
    magicFold (List.replicate UPDATE_MAGIC_SIZE 0) e = List.replicate UPDATE_MAGIC_SIZE 0 := by
  have hzero : ∀ (p : Nat) (d : List Nat), (∀ b ∈ d, b = 0) →
      magicStep (List.replicate UPDATE_MAGIC_SIZE 0) (p, d)
        = List.replicate UPDATE_MAGIC_SIZE 0 := by
    intro p d hd
    unfold magicStep
    split_ifs with h
    · rfl
    · refine List.eq_replicate_iff.mpr ⟨?_, ?_⟩
      · simp only [List.length_take, List.length_append, List.length_replicate,
          List.length_drop]
        omega
      · intro b hb
        have hb2 := List.mem_of_mem_take hb
        rcases List.mem_append.1 hb2 with h2 | h2
        · rcases List.mem_append.1 h2 with h3 | h3
          · exact List.eq_of_mem_replicate (List.mem_of_mem_take h3)
          · exact hd b h3
        · exact List.eq_of_mem_replicate (List.mem_of_mem_drop h2)
  have hhigh : ∀ (p : Nat) (d : List Nat), UPDATE_MAGIC_SIZE ≤ p →
      magicStep (List.replicate UPDATE_MAGIC_SIZE 0) (p, d)
        = List.replicate UPDATE_MAGIC_SIZE 0 := by
    intro p d h
    unfold magicStep
    rw [if_pos h]
  cases e with
  | openSession => rfl
  | closeSession => rfl
  | erase r => rfl
  | zeroHeaderWrite p => exact hzero p _ (fun b hb => List.eq_of_mem_replicate hb)
  | placeholderWrite p =>
      simp only [keepsMagicZero, decide_eq_true_eq] at hk
      exact hhigh p _ hk
  | payloadWrite p n =>
      simp only [keepsMagicZero, decide_eq_true_eq] at hk
      exact hhigh p _ hk
  | bitmapWrite p wb nb n =>
      simp only [keepsMagicZero, decide_eq_true_eq] at hk
      exact hhigh p _ hk
  | realHeaderWrite p h => simp [keepsMagicZero] at hk
  | logBlockWrite p n =>
      simp only [keepsMagicZero, decide_eq_true_eq] at hk
      exact hhigh p _ hk
  | failedWrite => rfl
  | useAfterClose => rfl
  | logFileSeek b => rfl
  | logFileRead b n => rfl
  | logFileClose b => rfl

/-- Replaying any prefix of a trace of magic-keeping events leaves the
on-disk magic region all-zero. -/
theorem magicAfter_take_zero (l : List MEvent) (hl : ∀ e ∈ l, keepsMagicZero e = true) :
    ∀ n, magicAfter (l.take n) = List.replicate UPDATE_MAGIC_SIZE 0 := by
  unfold magicAfter
  induction l with
  | nil => intro n; simp [List.take_nil]
  | cons e t ih =>
    intro n
    cases n with
    | zero => simp
    | succ m =>
      rw [List.take_succ_cons, List.foldl_cons,
        magicFold_keeps e (hl e (by simp))]
      exact ih (fun x hx => hl x (by simp [hx])) m

/-- Membership in a `takeWhile` prefix implies membership in the list. -/
theorem mem_of_mem_takeWhile (P : MEvent → Bool) (l : List MEvent) (e : MEvent)
    (h : e ∈ l.takeWhile P) : e ∈ l := by
  induction l with
  | nil => simpa using h
  | cons x t ih =>
    rw [List.takeWhile_cons] at h
    split_ifs at h with hp
    · rcases List.mem_cons.1 h with rfl | h2
      · simp
      · simp [ih h2]
    · cases h

/-- The magic field fits inside the header region. -/
theorem magic_le_header : UPDATE_MAGIC_SIZE ≤ HEADER_SIZE := Nat.le_add_right _ _

/-- A payload write past the header region keeps the magic zero. -/
theorem keeps_payloadWrite (p n : Nat) (h : HEADER_SIZE ≤ p) :
    keepsMagicZero (.payloadWrite p n) = true := by
  simp only [keepsMagicZero, decide_eq_true_eq]
  exact le_trans magic_le_header h

/-- A bitmap write past the header region keeps the magic zero. -/
theorem keeps_bitmapWrite (p : Nat) (wb nb : Bool) (n : Nat) (h : HEADER_SIZE ≤ p) :
    keepsMagicZero (.bitmapWrite p wb nb n) = true := by
  simp only [keepsMagicZero, decide_eq_true_eq]
  exact le_trans magic_le_header h

/-- The log-reservation byte past the header region keeps the magic zero. -/
theorem keeps_placeholderWrite (p : Nat) (h : HEADER_SIZE ≤ p) :
    keepsMagicZero (.placeholderWrite p) = true := by
  simp only [keepsMagicZero, decide_eq_true_eq]
  exact le_trans magic_le_header h

/-- A log-block write past the header region keeps the magic zero. -/
theorem keeps_logBlockWrite (p n : Nat) (h : HEADER_SIZE ≤ p) :
    keepsMagicZero (.logBlockWrite p n) = true := by
  simp only [keepsMagicZero, decide_eq_true_eq]
  exact le_trans magic_le_header h

/-- The payload step appends only magic-keeping events; on success, a full
payload write is in the trace, the position stays past the header and the
in-memory magic is untouched. -/
theorem wubPayload_trace (o : CacheOracle) (u : List Nat) (s : WSt) (hdr : update_header)
    (hEr : ∀ k, o.eraseResult k = -1 ∨ (HEADER_SIZE : Int) ≤ o.eraseResult k)
    (hp : HEADER_SIZE ≤ s.pos) :
    (∀ r, wubPayload o u s hdr = .error r → ∃ t, r.trace = s.trace ++ t ∧ KeepsAll t) ∧
    (∀ st, wubPayload o u s hdr = .ok st →
      (∃ t, st.s.trace = s.trace ++ t ∧ KeepsAll t) ∧
      (∃ q, MEvent.payloadWrite q u.length ∈ st.s.trace) ∧
      HEADER_SIZE ≤ st.s.pos ∧ st.hdr.magic = hdr.magic) := by
  obtain ⟨t1, he1, hk1⟩ := mtd_erase_blocks_trace o s
  have hp1 := mtd_erase_blocks_pos o s hEr hp
  obtain ⟨t2, he2, hc2⟩ := mtd_write_data_trace o (mtd_erase_blocks o s).2 u.length
    (fun p => .payloadWrite p u.length)
  have hk2 : KeepsAll t2 := by
    intro e he
    rcases hc2 e he with h | rfl
    · exact h
    · exact keeps_payloadWrite _ _ hp1
  have hp2 := mtd_write_data_pos o (mtd_erase_blocks o s).2 u.length
    (fun p => .payloadWrite p u.length) hp1
  constructor
  · intro r hr
    simp only [wubPayload, failAndClose] at hr
    split_ifs at hr with h1 h2
    · injection hr with hr
      subst hr
      obtain ⟨t3, he3, hk3⟩ := mtd_write_close_trace o (mtd_erase_blocks o s).2
      refine ⟨t1 ++ t3, ?_, KeepsAll_append _ _ hk1 hk3⟩
      simp only [he3, he1, List.append_assoc]
    · injection hr with hr
      subst hr
      obtain ⟨t3, he3, hk3⟩ := mtd_write_close_trace o
        (mtd_write_data o (mtd_erase_blocks o s).2 u.length
          (fun p => .payloadWrite p u.length)).2
      refine ⟨t1 ++ (t2 ++ t3), ?_, KeepsAll_append _ _ hk1 (KeepsAll_append _ _ hk2 hk3)⟩
      simp only [he3, he2, he1, List.append_assoc]
  · intro st hst
    simp only [wubPayload, failAndClose] at hst
    split_ifs at hst with h1 h2
    injection hst with hst
    subst hst
    obtain ⟨t3, he3, hk3⟩ := mtd_erase_blocks_trace o
      (mtd_write_data o (mtd_erase_blocks o s).2 u.length
        (fun p => .payloadWrite p u.length)).2
    have hwok : (mtd_write_data o (mtd_erase_blocks o s).2 u.length
        (fun p => .payloadWrite p u.length)).1 = true := by
      simp only [ne_eq, Bool.not_eq_false] at h2
      exact h2
    refine ⟨⟨t1 ++ (t2 ++ t3), ?_, ?_⟩, ⟨(mtd_erase_blocks o s).2.pos, ?_⟩, ?_, rfl⟩
    · simp only [he3, he2, he1, List.append_assoc]
    · exact KeepsAll_append _ _ hk1 (KeepsAll_append _ _ hk2 hk3)
    · have hm := mtd_write_data_mem o (mtd_erase_blocks o s).2 u.length
        (fun p => .payloadWrite p u.length) hwok
      simp only [he3]
      exact List.mem_append_left _ hm
    · exact mtd_erase_blocks_pos o _ hEr hp2

/-- The busy-bitmap step appends only magic-keeping events; on success, a
full busy-bitmap write is in the trace, the position stays past the header
and the in-memory magic is untouched. -/
theorem wubBusyBitmap_trace (o : CacheOracle) (busy : Option (List Nat)) (blen : Nat)
    (st : P1St)
    (hEr : ∀ k, o.eraseResult k = -1 ∨ (HEADER_SIZE : Int) ≤ o.eraseResult k)
    (hp : HEADER_SIZE ≤ st.s.pos) :
    (∀ r, wubBusyBitmap o busy blen st = .error r →
        ∃ t, r.trace = st.s.trace ++ t ∧ KeepsAll t) ∧
    (∀ st2, wubBusyBitmap o busy blen st = .ok st2 →
      (∃ t, st2.s.trace = st.s.trace ++ t ∧ KeepsAll t) ∧
      (∃ q, MEvent.bitmapWrite q false busy.isNone blen ∈ st2.s.trace) ∧
      HEADER_SIZE ≤ st2.s.pos ∧ st2.hdr.magic = st.hdr.magic) := by
  obtain ⟨t2, he2, hc2⟩ := mtd_write_data_trace o st.s blen
    (fun p => .bitmapWrite p false busy.isNone blen)
  have hk2 : KeepsAll t2 := by
    intro e he
    rcases hc2 e he with h | rfl
    · exact h
    · exact keeps_bitmapWrite _ _ _ _ hp
  have hp2 := mtd_write_data_pos o st.s blen
    (fun p => .bitmapWrite p false busy.isNone blen) hp
  constructor
  · intro r hr
    simp only [wubBusyBitmap, failAndClose] at hr
    split_ifs at hr with h1 h2
    · injection hr with hr
      subst hr
      obtain ⟨t3, he3, hk3⟩ := mtd_write_close_trace o st.s
      exact ⟨t3, by simp only [he3], hk3⟩
    · injection hr with hr
      subst hr
      obtain ⟨t3, he3, hk3⟩ := mtd_write_close_trace o
        (mtd_write_data o st.s blen (fun p => .bitmapWrite p false busy.isNone blen)).2
      refine ⟨t2 ++ t3, ?_, KeepsAll_append _ _ hk2 hk3⟩
      simp only [he3, he2, List.append_assoc]
  · intro st2 hst
    simp only [wubBusyBitmap, failAndClose] at hst
    split_ifs at hst with h1 h2
    injection hst with hst
    subst hst
    obtain ⟨t3, he3, hk3⟩ := mtd_erase_blocks_trace o
      (mtd_write_data o st.s blen (fun p => .bitmapWrite p false busy.isNone blen)).2
    have hwok : (mtd_write_data o st.s blen
        (fun p => .bitmapWrite p false busy.isNone blen)).1 = true := by
      simp only [ne_eq, Bool.not_eq_false] at h2
      exact h2
    refine ⟨⟨t2 ++ t3, ?_, KeepsAll_append _ _ hk2 hk3⟩, ⟨st.s.pos, ?_⟩, ?_, rfl⟩
    · simp only [he3, he2, List.append_assoc]
    · have hm := mtd_write_data_mem o st.s blen
        (fun p => .bitmapWrite p false busy.isNone blen) hwok
      simp only [he3]
      exact List.mem_append_left _ hm
    · exact mtd_erase_blocks_pos o _ hEr hp2

/-- The fail-bitmap step appends only magic-keeping events; on success, a
full fail-bitmap write is in the trace, the position stays past the header
and the in-memory magic is untouched. -/
theorem wubFailBitmap_trace (o : CacheOracle) (fail : Option (List Nat)) (blen : Nat)
    (st : P1St)
    (hEr : ∀ k, o.eraseResult k = -1 ∨ (HEADER_SIZE : Int) ≤ o.eraseResult k)
    (hp : HEADER_SIZE ≤ st.s.pos) :
    (∀ r, wubFailBitmap o fail blen st = .error r →
        ∃ t, r.trace = st.s.trace ++ t ∧ KeepsAll t) ∧
    (∀ st2, wubFailBitmap o fail blen st = .ok st2 →
      (∃ t, st2.s.trace = st.s.trace ++ t ∧ KeepsAll t) ∧
      (∃ q, MEvent.bitmapWrite q true fail.isNone blen ∈ st2.s.trace) ∧
      HEADER_SIZE ≤ st2.s.pos ∧ st2.hdr.magic = st.hdr.magic) := by
  obtain ⟨t2, he2, hc2⟩ := mtd_write_data_trace o st.s blen
    (fun p => .bitmapWrite p true fail.isNone blen)
  have hk2 : KeepsAll t2 := by
    intro e he
    rcases hc2 e he with h | rfl
    · exact h
    · exact keeps_bitmapWrite _ _ _ _ hp
  have hp2 := mtd_write_data_pos o st.s blen
    (fun p => .bitmapWrite p true fail.isNone blen) hp
  constructor
  · intro r hr
    simp only [wubFailBitmap, failAndClose] at hr
    split_ifs at hr with h1 h2
    · injection hr with hr
      subst hr
      obtain ⟨t3, he3, hk3⟩ := mtd_write_close_trace o st.s
      exact ⟨t3, by simp only [he3], hk3⟩
    · injection hr with hr
      subst hr
      obtain ⟨t3, he3, hk3⟩ := mtd_write_close_trace o
        (mtd_write_data o st.s blen (fun p => .bitmapWrite p true fail.isNone blen)).2
      refine ⟨t2 ++ t3, ?_, KeepsAll_append _ _ hk2 hk3⟩
      simp only [he3, he2, List.append_assoc]
  · intro st2 hst
    simp only [wubFailBitmap, failAndClose] at hst
    split_ifs at hst with h1 h2
    injection hst with hst
    subst hst
    obtain ⟨t3, he3, hk3⟩ := mtd_erase_blocks_trace o
      (mtd_write_data o st.s blen (fun p => .bitmapWrite p true fail.isNone blen)).2
    have hwok : (mtd_write_data o st.s blen
        (fun p => .bitmapWrite p true fail.isNone blen)).1 = true := by
      simp only [ne_eq, Bool.not_eq_false] at h2
      exact h2
    refine ⟨⟨t2 ++ t3, ?_, KeepsAll_append _ _ hk2 hk3⟩, ⟨st.s.pos, ?_⟩, ?_, rfl⟩
    · simp only [he3, he2, List.append_assoc]
    · have hm := mtd_write_data_mem o st.s blen
        (fun p => .bitmapWrite p true fail.isNone blen) hwok
      simp only [he3]
      exact List.mem_append_left _ hm
    · exact mtd_erase_blocks_pos o _ hEr hp2

/-- The finalization appends only magic-keeping events. -/
theorem wubFinalize_keeps (o : CacheOracle) (s : WSt) (hdr : update_header) (i : Int) :
    ∃ t, (wubFinalize o s hdr i).trace = s.trace ++ t ∧ KeepsAll t := by
  obtain ⟨t1, he1, hk1⟩ := mtd_erase_blocks_trace o s
  obtain ⟨t2, he2, hk2⟩ := mtd_write_close_trace o (mtd_erase_blocks o s).2
  simp only [wubFinalize]
  split_ifs <;>
    exact ⟨t1 ++ t2, by simp only [he2, he1, List.append_assoc],
      KeepsAll_append _ _ hk1 hk2⟩

/-- Composing two magic-keeping trace extensions. -/
theorem extend_trace {base mid fin : List MEvent}
    (h1 : ∃ t, mid = base ++ t ∧ KeepsAll t)
    (h2 : ∃ t, fin = mid ++ t ∧ KeepsAll t) :
    ∃ t, fin = base ++ t ∧ KeepsAll t := by
  obtain ⟨t1, rfl, hk1⟩ := h1
  obtain ⟨t2, rfl, hk2⟩ := h2
  exact ⟨t1 ++ t2, by simp [List.append_assoc], KeepsAll_append _ _ hk1 hk2⟩

/-- The log-capture step appends only magic-keeping events (the log block
lands past the header region). -/
theorem wubLogCapture_keeps (o : CacheOracle) (s : WSt) (hdr : update_header) (i : Int)
    (hEr : ∀ k, o.eraseResult k = -1 ∨ (HEADER_SIZE : Int) ≤ o.eraseResult k)
    (hp : HEADER_SIZE ≤ s.pos) :
    ∃ t, (wubLogCapture o s hdr i).trace = s.trace ++ t ∧ KeepsAll t := by
  have AE : ∃ t, (mtd_erase_blocks o s).2.trace = s.trace ++ t ∧ KeepsAll t :=
    mtd_erase_blocks_trace o s
  have hp0 := mtd_erase_blocks_pos o s hEr hp
  simp only [wubLogCapture]
  split_ifs with h1 h2 h3
  · obtain ⟨tc, hec, hkc⟩ := mtd_write_close_trace o s
    exact ⟨tc, by simp only [hec], hkc⟩
  · set S0 := (mtd_erase_blocks o s).2 with hS0
    set E1 := MEvent.logFileSeek (decide (o.fopenOk = false)) with hE1
    set E2 := MEvent.logFileRead (decide (o.fopenOk = false))
      (min o.freadLen (o.eraseSize - SIZEOF_SIZE_T - LOG_MAGIC_SIZE)) with hE2
    set E3 := MEvent.logFileClose (decide (o.fopenOk = false)) with hE3
    have A2 : ∃ t, (((S0.emit E1).emit E2).emit E3).trace = S0.trace ++ t ∧ KeepsAll t :=
      ⟨[E1, E2, E3], by simp [WSt.emit], by
        intro e he
        fin_cases he <;> simp [hE1, hE2, hE3, keepsMagicZero]⟩
    obtain ⟨tw, hew, hcw⟩ := mtd_write_data_trace o (((S0.emit E1).emit E2).emit E3)
      o.eraseSize (fun p => MEvent.logBlockWrite p o.eraseSize)
    have A3 : ∃ t, (mtd_write_data o (((S0.emit E1).emit E2).emit E3)
        o.eraseSize (fun p => MEvent.logBlockWrite p o.eraseSize)).2.trace
          = (((S0.emit E1).emit E2).emit E3).trace ++ t ∧ KeepsAll t := by
      refine ⟨tw, hew, ?_⟩
      intro e he
      rcases hcw e he with h | rfl
      · exact h
      · exact keeps_logBlockWrite _ _ hp0
    have A4 := mtd_write_close_trace o (mtd_write_data o (((S0.emit E1).emit E2).emit E3)
      o.eraseSize (fun p => MEvent.logBlockWrite p o.eraseSize)).2
    have A5 := wubFinalize_keeps o (mtd_write_close o
      (mtd_write_data o (((S0.emit E1).emit E2).emit E3)
        o.eraseSize (fun p => MEvent.logBlockWrite p o.eraseSize)).2).2 hdr i
    exact extend_trace (extend_trace (extend_trace (extend_trace AE A2) A3) A4) A5
  · set S0 := (mtd_erase_blocks o s).2 with hS0
    set E1 := MEvent.logFileSeek (decide (o.fopenOk = false)) with hE1
    set E2 := MEvent.logFileRead (decide (o.fopenOk = false))
      (min o.freadLen (o.eraseSize - SIZEOF_SIZE_T - LOG_MAGIC_SIZE)) with hE2
    set E3 := MEvent.logFileClose (decide (o.fopenOk = false)) with hE3
    have A2 : ∃ t, (((S0.emit E1).emit E2).emit E3).trace = S0.trace ++ t ∧ KeepsAll t :=
      ⟨[E1, E2, E3], by simp [WSt.emit], by
        intro e he
        fin_cases he <;> simp [hE1, hE2, hE3, keepsMagicZero]⟩
    obtain ⟨tw, hew, hcw⟩ := mtd_write_data_trace o (((S0.emit E1).emit E2).emit E3)
      o.eraseSize (fun p => MEvent.logBlockWrite p o.eraseSize)
    have A3 : ∃ t, (mtd_write_data o (((S0.emit E1).emit E2).emit E3)
        o.eraseSize (fun p => MEvent.logBlockWrite p o.eraseSize)).2.trace
          = (((S0.emit E1).emit E2).emit E3).trace ++ t ∧ KeepsAll t := by
      refine ⟨tw, hew, ?_⟩
      intro e he
      rcases hcw e he with h | rfl
      · exact h
      · exact keeps_logBlockWrite _ _ hp0
    have A5 := wubFinalize_keeps o (mtd_write_data o (((S0.emit E1).emit E2).emit E3)
      o.eraseSize (fun p => MEvent.logBlockWrite p o.eraseSize)).2 hdr i
    exact extend_trace (extend_trace (extend_trace AE A2) A3) A5
  · exact extend_trace AE (wubFinalize_keeps o _ hdr i)

/-- A magic-keeping extension also satisfies the keeping-or-header-write
classification. -/
theorem weaken_keeps {X : MEvent} {base fin : List MEvent}
    (h : ∃ t, fin = base ++ t ∧ KeepsAll t) :
    ∃ t, fin = base ++ t ∧ ∀ e ∈ t, keepsMagicZero e = true ∨ e = X := by
  obtain ⟨t, rfl, hk⟩ := h
  exact ⟨t, rfl, fun e he => Or.inl (hk e he)⟩

/-- Composing two keeping-or-header-write trace extensions. -/
theorem extend_traceR {X : MEvent} {base mid fin : List MEvent}
    (h1 : ∃ t, mid = base ++ t ∧ ∀ e ∈ t, keepsMagicZero e = true ∨ e = X)
    (h2 : ∃ t, fin = mid ++ t ∧ ∀ e ∈ t, keepsMagicZero e = true ∨ e = X) :
    ∃ t, fin = base ++ t ∧ ∀ e ∈ t, keepsMagicZero e = true ∨ e = X := by
  obtain ⟨t1, rfl, hk1⟩ := h1
  obtain ⟨t2, rfl, hk2⟩ := h2
  refine ⟨t1 ++ t2, by simp [List.append_assoc], ?_⟩
  intro e he
  rcases List.mem_append.1 he with h | h
  · exact hk1 e h
  · exact hk2 e h

/-- The close/reopen/header-rewrite sequence appends only events that keep
the magic zero, except for the single valid-header write at offset 0. -/
theorem wubHeaderRewrite_trace (o : CacheOracle) (hasLog : Bool) (st : P1St)
    (hEr : ∀ k, o.eraseResult k = -1 ∨ (HEADER_SIZE : Int) ≤ o.eraseResult k) :
    ∃ t, (wubHeaderRewrite o hasLog st).trace = st.s.trace ++ t ∧
      ∀ e ∈ t, keepsMagicZero e = true ∨ e = MEvent.realHeaderWrite 0 st.hdr := by
  have A1 := mtd_write_close_trace o st.s
  have A2 := mtd_write_partition_trace o 1 (mtd_write_close o st.s).2
  simp only [wubHeaderRewrite, failAndClose]
  split_ifs with h1 h2 h3 h4
  · exact weaken_keeps A1
  · exact extend_traceR (weaken_keeps A1) (weaken_keeps A2)
  · -- header write failed
    have hpos8 : (mtd_write_partition o 1 (mtd_write_close o st.s).2).2.pos = 0 :=
      mtd_write_partition_pos_ok o 1 _ (by simp only [ne_eq, Bool.not_eq_false] at h2; exact h2)
    obtain ⟨tw, hew, hcw⟩ := mtd_write_data_trace o
      (mtd_write_partition o 1 (mtd_write_close o st.s).2).2 HEADER_SIZE
      (fun p => MEvent.realHeaderWrite p st.hdr)
    have AW : ∃ t, (mtd_write_data o
        (mtd_write_partition o 1 (mtd_write_close o st.s).2).2 HEADER_SIZE
        (fun p => MEvent.realHeaderWrite p st.hdr)).2.trace
          = (mtd_write_partition o 1 (mtd_write_close o st.s).2).2.trace ++ t ∧
        ∀ e ∈ t, keepsMagicZero e = true ∨ e = MEvent.realHeaderWrite 0 st.hdr := by
      refine ⟨tw, hew, ?_⟩
      intro e he
      rcases hcw e he with h | rfl
      · exact Or.inl h
      · right
        rw [hpos8]
    have A4 := mtd_write_close_trace o (mtd_write_data o
      (mtd_write_partition o 1 (mtd_write_close o st.s).2).2 HEADER_SIZE
      (fun p => MEvent.realHeaderWrite p st.hdr)).2
    exact extend_traceR (extend_traceR (extend_traceR (weaken_keeps A1) (weaken_keeps A2)) AW)
      (weaken_keeps A4)
  · -- header write succeeded, log capture follows
    have hpos8 : (mtd_write_partition o 1 (mtd_write_close o st.s).2).2.pos = 0 :=
      mtd_write_partition_pos_ok o 1 _ (by simp only [ne_eq, Bool.not_eq_false] at h2; exact h2)
    have hwok : (mtd_write_data o
        (mtd_write_partition o 1 (mtd_write_close o st.s).2).2 HEADER_SIZE
        (fun p => MEvent.realHeaderWrite p st.hdr)).1 = true := by
      simp only [ne_eq, Bool.not_eq_false] at h3
      exact h3
    have hp9 : HEADER_SIZE ≤ (mtd_write_data o
        (mtd_write_partition o 1 (mtd_write_close o st.s).2).2 HEADER_SIZE
        (fun p => MEvent.realHeaderWrite p st.hdr)).2.pos := by
      rw [mtd_write_data_pos_ok _ _ _ _ hwok, hpos8]
      omega
    obtain ⟨tw, hew, hcw⟩ := mtd_write_data_trace o
      (mtd_write_partition o 1 (mtd_write_close o st.s).2).2 HEADER_SIZE
      (fun p => MEvent.realHeaderWrite p st.hdr)
    have AW : ∃ t, (mtd_write_data o
        (mtd_write_partition o 1 (mtd_write_close o st.s).2).2 HEADER_SIZE
        (fun p => MEvent.realHeaderWrite p st.hdr)).2.trace
          = (mtd_write_partition o 1 (mtd_write_close o st.s).2).2.trace ++ t ∧
        ∀ e ∈ t, keepsMagicZero e = true ∨ e = MEvent.realHeaderWrite 0 st.hdr := by
      refine ⟨tw, hew, ?_⟩
      intro e he
      rcases hcw e he with h | rfl
      · exact Or.inl h
      · right
        rw [hpos8]
    have A5 := wubLogCapture_keeps o (mtd_write_data o
      (mtd_write_partition o 1 (mtd_write_close o st.s).2).2 HEADER_SIZE
      (fun p => MEvent.realHeaderWrite p st.hdr)).2 st.hdr st.imageStart hEr hp9
    exact extend_traceR (extend_traceR (extend_traceR (weaken_keeps A1) (weaken_keeps A2)) AW)
      (weaken_keeps A5)
  · -- header write succeeded, straight to finalization
    have hpos8 : (mtd_write_partition o 1 (mtd_write_close o st.s).2).2.pos = 0 :=
      mtd_write_partition_pos_ok o 1 _ (by simp only [ne_eq, Bool.not_eq_false] at h2; exact h2)
    obtain ⟨tw, hew, hcw⟩ := mtd_write_data_trace o
      (mtd_write_partition o 1 (mtd_write_close o st.s).2).2 HEADER_SIZE
      (fun p => MEvent.realHeaderWrite p st.hdr)
    have AW : ∃ t, (mtd_write_data o
        (mtd_write_partition o 1 (mtd_write_close o st.s).2).2 HEADER_SIZE
        (fun p => MEvent.realHeaderWrite p st.hdr)).2.trace
          = (mtd_write_partition o 1 (mtd_write_close o st.s).2).2.trace ++ t ∧
        ∀ e ∈ t, keepsMagicZero e = true ∨ e = MEvent.realHeaderWrite 0 st.hdr := by
      refine ⟨tw, hew, ?_⟩
      intro e he
      rcases hcw e he with h | rfl
      · exact Or.inl h
      · right
        rw [hpos8]
    have A5 := wubFinalize_keeps o (mtd_write_data o
      (mtd_write_partition o 1 (mtd_write_close o st.s).2).2 HEADER_SIZE
      (fun p => MEvent.realHeaderWrite p st.hdr)).2 st.hdr st.imageStart
    exact extend_traceR (extend_traceR (extend_traceR (weaken_keeps A1) (weaken_keeps A2)) AW)
      (weaken_keeps A5)

/-- Every event the first pass appends keeps the magic region zero, except
the valid-header write at offset 0: that header carries the magic the pass
was given, and its write implies full payload and bitmap writes are in the
run's trace. -/
theorem wubPassOne_c1 (o : CacheOracle) (u : List Nat)
    (bw bh bpp : Nat) (busy fail : Option (List Nat)) (hasLog : Bool)
    (s : WSt) (hdr : update_header)
    (hEr : ∀ k, o.eraseResult k = -1 ∨ (HEADER_SIZE : Int) ≤ o.eraseResult k)
    (hp : HEADER_SIZE ≤ s.pos) :
    ∃ t, (wubPassOne o u bw bh bpp busy fail hasLog s hdr).trace = s.trace ++ t ∧
      ∀ e ∈ t, keepsMagicZero e = true ∨
        ∃ h2, e = MEvent.realHeaderWrite 0 h2 ∧ h2.magic = hdr.magic ∧
          (∃ q, MEvent.payloadWrite q u.length ∈
            (wubPassOne o u bw bh bpp busy fail hasLog s hdr).trace) ∧
          (∃ q, MEvent.bitmapWrite q false busy.isNone (bitmap_length bpp bw bh) ∈
            (wubPassOne o u bw bh bpp busy fail hasLog s hdr).trace) ∧
          (∃ q, MEvent.bitmapWrite q true fail.isNone (bitmap_length bpp bw bh) ∈
            (wubPassOne o u bw bh bpp busy fail hasLog s hdr).trace) := by
  obtain ⟨Perr, Pok⟩ := wubPayload_trace o u s hdr hEr hp
  cases hP : wubPayload o u s hdr with
  | error r =>
    simp only [wubPassOne, hP]
    obtain ⟨t, he, hk⟩ := Perr r hP
    exact ⟨t, he, fun e hem => Or.inl (hk e hem)⟩
  | ok st1 =>
    obtain ⟨⟨t1, he1, hk1⟩, hmem1, hp1, hmag1⟩ := Pok st1 hP
    simp only [wubPassOne, hP]
    obtain ⟨Berr, Bok⟩ := wubBusyBitmap_trace o busy (bitmap_length bpp bw bh)
      ⟨st1.s, { st1.hdr with bitmap_width := bw, bitmap_height := bh, bitmap_bpp := bpp },
        st1.imageStart, st1.prevStart⟩ hEr hp1
    cases hB : wubBusyBitmap o busy (bitmap_length bpp bw bh)
        ⟨st1.s, { st1.hdr with bitmap_width := bw, bitmap_height := bh, bitmap_bpp := bpp },
          st1.imageStart, st1.prevStart⟩ with
    | error r =>
      simp only [hB]
      obtain ⟨t2, he2, hk2⟩ := Berr r hB
      refine ⟨t1 ++ t2, ?_, ?_⟩
      · simp only [he2, he1, List.append_assoc]
      · intro e hem
        rcases List.mem_append.1 hem with h | h
        · exact Or.inl (hk1 e h)
        · exact Or.inl (hk2 e h)
    | ok st2 =>
      obtain ⟨⟨t2, he2, hk2⟩, hmem2, hp2, hmag2⟩ := Bok st2 hB
      simp only [hB]
      obtain ⟨Ferr, Fok⟩ := wubFailBitmap_trace o fail (bitmap_length bpp bw bh) st2 hEr hp2
      cases hF : wubFailBitmap o fail (bitmap_length bpp bw bh) st2 with
      | error r =>
        simp only [hF]
        obtain ⟨t3, he3, hk3⟩ := Ferr r hF
        refine ⟨t1 ++ (t2 ++ t3), ?_, ?_⟩
        · simp only [he3, he2, he1, List.append_assoc]
        · intro e hem
          rcases List.mem_append.1 hem with h | h
          · exact Or.inl (hk1 e h)
          · rcases List.mem_append.1 h with h | h
            · exact Or.inl (hk2 e h)
            · exact Or.inl (hk3 e h)
      | ok st3 =>
        obtain ⟨⟨t3, he3, hk3⟩, hmem3, hp3, hmag3⟩ := Fok st3 hF
        simp only [hF]
        obtain ⟨t4, he4, hc4⟩ := wubHeaderRewrite_trace o hasLog st3 hEr
        refine ⟨t1 ++ (t2 ++ (t3 ++ t4)), ?_, ?_⟩
        · simp only [he4, he3, he2, he1, List.append_assoc]
        · intro e hem
          have hmemP : ∃ q, MEvent.payloadWrite q u.length ∈
              (wubHeaderRewrite o hasLog st3).trace := by
            obtain ⟨q, hq⟩ := hmem1
            refine ⟨q, ?_⟩
            rw [he4, he3, he2]
            exact List.mem_append_left _ (List.mem_append_left _ (List.mem_append_left _ hq))
          have hmemB : ∃ q, MEvent.bitmapWrite q false busy.isNone (bitmap_length bpp bw bh) ∈
              (wubHeaderRewrite o hasLog st3).trace := by
            obtain ⟨q, hq⟩ := hmem2
            refine ⟨q, ?_⟩
            rw [he4, he3]
            exact List.mem_append_left _ (List.mem_append_left _ hq)
          have hmemF : ∃ q, MEvent.bitmapWrite q true fail.isNone (bitmap_length bpp bw bh) ∈
              (wubHeaderRewrite o hasLog st3).trace := by
            obtain ⟨q, hq⟩ := hmem3
            refine ⟨q, ?_⟩
            rw [he4]
            exact List.mem_append_left _ hq
          rcases List.mem_append.1 hem with h | h
          · exact Or.inl (hk1 e h)
          · rcases List.mem_append.1 h with h | h
            · exact Or.inl (hk2 e h)
            · rcases List.mem_append.1 h with h | h
              · exact Or.inl (hk3 e h)
              · rcases hc4 e h with h | rfl
                · exact Or.inl h
                · refine Or.inr ⟨st3.hdr, rfl, ?_, hmemP, hmemB, hmemF⟩
                  rw [hmag3, hmag2, ← hmag1]

/-- Header discipline of a whole run: every event either keeps an all-zero
magic region zero, or is the single valid-header write at offset 0, whose
magic is `UPDATE_MAGIC` and whose presence implies full payload, busy- and
fail-bitmap writes in the trace. -/
theorem write_update_c1_core (o : CacheOracle) (u : List Nat)
    (bw bh bpp : Nat) (busy fail : Option (List Nat)) (hasLog : Bool)
    (hEr : ∀ k, o.eraseResult k = -1 ∨ (HEADER_SIZE : Int) ≤ o.eraseResult k) :
    ∀ e ∈ (write_update_for_bootloader o u bw bh bpp busy fail hasLog).trace,
      keepsMagicZero e = true ∨
      ∃ h2, e = MEvent.realHeaderWrite 0 h2 ∧ h2.magic = UPDATE_MAGIC ∧
        (∃ q, MEvent.payloadWrite q u.length ∈
          (write_update_for_bootloader o u bw bh bpp busy fail hasLog).trace) ∧
        (∃ q, MEvent.bitmapWrite q false busy.isNone (bitmap_length bpp bw bh) ∈
          (write_update_for_bootloader o u bw bh bpp busy fail hasLog).trace) ∧
        (∃ q, MEvent.bitmapWrite q true fail.isNone (bitmap_length bpp bw bh) ∈
          (write_update_for_bootloader o u bw bh bpp busy fail hasLog).trace) := by
  intro e he
  simp only [write_update_for_bootloader] at he ⊢
  split_ifs at he ⊢ with c1 c2 c3 c4 c5
  · simp at he
  · obtain ⟨t, ht, hk⟩ := mtd_write_partition_trace o 0 ⟨0, 0, 0, 0, true, []⟩
    rw [ht] at he
    simp only [List.nil_append] at he
    exact Or.inl (hk e he)
  · obtain ⟨tp, htp, hkp⟩ := mtd_write_partition_trace o 0 ⟨0, 0, 0, 0, true, []⟩
    obtain ⟨tw, htw, hcw⟩ := mtd_write_data_trace o
      (mtd_write_partition o 0 ⟨0, 0, 0, 0, true, []⟩).2 HEADER_SIZE
      (fun p => MEvent.zeroHeaderWrite p)
    obtain ⟨tc, htc, hkc⟩ := mtd_write_close_trace o
      (mtd_write_data o (mtd_write_partition o 0 ⟨0, 0, 0, 0, true, []⟩).2 HEADER_SIZE
        (fun p => MEvent.zeroHeaderWrite p)).2
    rw [htc, htw, htp] at he
    simp only [List.nil_append, List.append_assoc] at he
    rcases List.mem_append.1 he with h | h
    · exact Or.inl (hkp e h)
    · rcases List.mem_append.1 h with h | h
      · rcases hcw e h with h2 | rfl
        · exact Or.inl h2
        · exact Or.inl rfl
      · exact Or.inl (hkc e h)
  · -- log-reservation placeholder write failed
    obtain ⟨tp, htp, hkp⟩ := mtd_write_partition_trace o 0 ⟨0, 0, 0, 0, true, []⟩
    obtain ⟨tw, htw, hcw⟩ := mtd_write_data_trace o
      (mtd_write_partition o 0 ⟨0, 0, 0, 0, true, []⟩).2 HEADER_SIZE
      (fun p => MEvent.zeroHeaderWrite p)
    obtain ⟨te, hte, hke⟩ := mtd_erase_blocks_trace o
      (mtd_write_data o (mtd_write_partition o 0 ⟨0, 0, 0, 0, true, []⟩).2 HEADER_SIZE
        (fun p => MEvent.zeroHeaderWrite p)).2
    have hpe : HEADER_SIZE ≤ (mtd_erase_blocks o
        (mtd_write_data o (mtd_write_partition o 0 ⟨0, 0, 0, 0, true, []⟩).2 HEADER_SIZE
          (fun p => MEvent.zeroHeaderWrite p)).2).2.pos := by
      apply mtd_erase_blocks_pos o _ hEr
      rw [mtd_write_data_pos_ok _ _ _ _ (by simp only [ne_eq, Bool.not_eq_false] at c3; exact c3)]
      omega
    obtain ⟨tl, htl, hcl⟩ := mtd_write_data_trace o
      (mtd_erase_blocks o
        (mtd_write_data o (mtd_write_partition o 0 ⟨0, 0, 0, 0, true, []⟩).2 HEADER_SIZE
          (fun p => MEvent.zeroHeaderWrite p)).2).2 1
      (fun p => MEvent.placeholderWrite p)
    obtain ⟨tc, htc, hkc⟩ := mtd_write_close_trace o
      (mtd_write_data o
        (mtd_erase_blocks o
          (mtd_write_data o (mtd_write_partition o 0 ⟨0, 0, 0, 0, true, []⟩).2 HEADER_SIZE
            (fun p => MEvent.zeroHeaderWrite p)).2).2 1
        (fun p => MEvent.placeholderWrite p)).2
    rw [htc, htl, hte, htw, htp] at he
    simp only [List.nil_append, List.append_assoc] at he
    rcases List.mem_append.1 he with h | h
    · exact Or.inl (hkp e h)
    · rcases List.mem_append.1 h with h | h
      · rcases hcw e h with h2 | rfl
        · exact Or.inl h2
        · exact Or.inl rfl
      · rcases List.mem_append.1 h with h | h
        · exact Or.inl (hke e h)
        · rcases List.mem_append.1 h with h | h
          · rcases hcl e h with h2 | rfl
            · exact Or.inl h2
            · exact Or.inl (keeps_placeholderWrite _ hpe)
          · exact Or.inl (hkc e h)
  · -- log path into the first pass
    have hpl : HEADER_SIZE ≤ (mtd_write_data o
        (mtd_erase_blocks o
          (mtd_write_data o (mtd_write_partition o 0 ⟨0, 0, 0, 0, true, []⟩).2 HEADER_SIZE
            (fun p => MEvent.zeroHeaderWrite p)).2).2 1
        (fun p => MEvent.placeholderWrite p)).2.pos := by
      apply mtd_write_data_pos
      apply mtd_erase_blocks_pos o _ hEr
      rw [mtd_write_data_pos_ok _ _ _ _ (by simp only [ne_eq, Bool.not_eq_false] at c3; exact c3)]
      omega
    obtain ⟨tq, htq, hcq⟩ := wubPassOne_c1 o u bw bh bpp busy fail hasLog
      (mtd_write_data o
        (mtd_erase_blocks o
          (mtd_write_data o (mtd_write_partition o 0 ⟨0, 0, 0, 0, true, []⟩).2 HEADER_SIZE
            (fun p => MEvent.zeroHeaderWrite p)).2).2 1
        (fun p => MEvent.placeholderWrite p)).2
      { zeroHeader with magic := UPDATE_MAGIC, version := UPDATE_VERSION, size := HEADER_SIZE }
      hEr hpl
    rw [htq] at he
    rcases List.mem_append.1 he with h | h
    · -- event from before the first pass: all keep the magic zero
      obtain ⟨tp, htp, hkp⟩ := mtd_write_partition_trace o 0 ⟨0, 0, 0, 0, true, []⟩
      obtain ⟨tw, htw, hcw⟩ := mtd_write_data_trace o
        (mtd_write_partition o 0 ⟨0, 0, 0, 0, true, []⟩).2 HEADER_SIZE
        (fun p => MEvent.zeroHeaderWrite p)
      obtain ⟨te, hte, hke⟩ := mtd_erase_blocks_trace o
        (mtd_write_data o (mtd_write_partition o 0 ⟨0, 0, 0, 0, true, []⟩).2 HEADER_SIZE
          (fun p => MEvent.zeroHeaderWrite p)).2
      have hpe : HEADER_SIZE ≤ (mtd_erase_blocks o
          (mtd_write_data o (mtd_write_partition o 0 ⟨0, 0, 0, 0, true, []⟩).2 HEADER_SIZE
            (fun p => MEvent.zeroHeaderWrite p)).2).2.pos := by
        apply mtd_erase_blocks_pos o _ hEr
        rw [mtd_write_data_pos_ok _ _ _ _ (by simp only [ne_eq, Bool.not_eq_false] at c3; exact c3)]
        omega
      obtain ⟨tl, htl, hcl⟩ := mtd_write_data_trace o
        (mtd_erase_blocks o
          (mtd_write_data o (mtd_write_partition o 0 ⟨0, 0, 0, 0, true, []⟩).2 HEADER_SIZE
            (fun p => MEvent.zeroHeaderWrite p)).2).2 1
        (fun p => MEvent.placeholderWrite p)
      rw [htl, hte, htw, htp] at h
      simp only [List.nil_append, List.append_assoc] at h
      rcases List.mem_append.1 h with h | h
      · exact Or.inl (hkp e h)
      · rcases List.mem_append.1 h with h | h
        · rcases hcw e h with h2 | rfl
          · exact Or.inl h2
          · exact Or.inl rfl
        · rcases List.mem_append.1 h with h | h
          · exact Or.inl (hke e h)
          · rcases hcl e h with h2 | rfl
            · exact Or.inl h2
            · exact Or.inl (keeps_placeholderWrite _ hpe)
    · rcases hcq e h with h2 | ⟨h2, rfl, hmag, hP, hB, hF⟩
      · exact Or.inl h2
      · exact Or.inr ⟨h2, rfl, hmag, hP, hB, hF⟩
  · -- no-log path into the first pass
    have hpw : HEADER_SIZE ≤ (mtd_write_data o
        (mtd_write_partition o 0 ⟨0, 0, 0, 0, true, []⟩).2 HEADER_SIZE
        (fun p => MEvent.zeroHeaderWrite p)).2.pos := by
      rw [mtd_write_data_pos_ok _ _ _ _ (by simp only [ne_eq, Bool.not_eq_false] at c3; exact c3)]
      omega
    obtain ⟨tq, htq, hcq⟩ := wubPassOne_c1 o u bw bh bpp busy fail hasLog
      (mtd_write_data o (mtd_write_partition o 0 ⟨0, 0, 0, 0, true, []⟩).2 HEADER_SIZE
        (fun p => MEvent.zeroHeaderWrite p)).2
      { zeroHeader with magic := UPDATE_MAGIC, version := UPDATE_VERSION, size := HEADER_SIZE }
      hEr hpw
    rw [htq] at he
    rcases List.mem_append.1 he with h | h
    · obtain ⟨tp, htp, hkp⟩ := mtd_write_partition_trace o 0 ⟨0, 0, 0, 0, true, []⟩
      obtain ⟨tw, htw, hcw⟩ := mtd_write_data_trace o
        (mtd_write_partition o 0 ⟨0, 0, 0, 0, true, []⟩).2 HEADER_SIZE
        (fun p => MEvent.zeroHeaderWrite p)
      rw [htw, htp] at h
      simp only [List.nil_append, List.append_assoc] at h
      rcases List.mem_append.1 h with h | h
      · exact Or.inl (hkp e h)
      · rcases hcw e h with h2 | rfl
        · exact Or.inl h2
        · exact Or.inl rfl
    · rcases hcq e h with h2 | ⟨h2, rfl, hmag, hP, hB, hF⟩
      · exact Or.inl h2
      · exact Or.inr ⟨h2, rfl, hmag, hP, hB, hF⟩

/-- C1 (amended): under the erase-forward contract of the offset primitive,
replaying any prefix of the run's trace strictly before the final header
write leaves the on-disk magic region all-zero, and any final header write
in the trace lands at offset 0, carries the correct magic, and occurs only
in runs whose trace holds a full payload write and full busy- and
fail-bitmap writes.  (As stated, the original claim is refuted by
`c1_counterexample_magic_without_success`: an error return after the final
header write leaves the correct magic on disk without success.) -/
theorem c1_header_discipline (o : CacheOracle) (u : List Nat)
    (bw bh bpp : Nat) (busy fail : Option (List Nat)) (hasLog : Bool)
    (hEr : ∀ k, o.eraseResult k = -1 ∨ (HEADER_SIZE : Int) ≤ o.eraseResult k) :
    (∀ n, magicAfter
        (((write_update_for_bootloader o u bw bh bpp busy fail hasLog).trace.takeWhile
          (fun e => ! e.isRealHeaderWrite)).take n)
        = List.replicate UPDATE_MAGIC_SIZE 0) ∧
    (∀ p h2, MEvent.realHeaderWrite p h2 ∈
        (write_update_for_bootloader o u bw bh bpp busy fail hasLog).trace →
      p = 0 ∧ h2.magic = UPDATE_MAGIC ∧
      (∃ q, MEvent.payloadWrite q u.length ∈
        (write_update_for_bootloader o u bw bh bpp busy fail hasLog).trace) ∧
      (∃ q, MEvent.bitmapWrite q false busy.isNone (bitmap_length bpp bw bh) ∈
        (write_update_for_bootloader o u bw bh bpp busy fail hasLog).trace) ∧
      (∃ q, MEvent.bitmapWrite q true fail.isNone (bitmap_length bpp bw bh) ∈
        (write_update_for_bootloader o u bw bh bpp busy fail hasLog).trace)) := by
  have core := write_update_c1_core o u bw bh bpp busy fail hasLog hEr
  constructor
  · intro n
    apply magicAfter_take_zero
    intro e he
    have hmem := mem_of_mem_takeWhile _ _ _ he
    have hP := List.mem_takeWhile_imp he
    rcases core e hmem with h | ⟨h2, rfl, _⟩
    · exact h
    · simp [MEvent.isRealHeaderWrite] at hP
  · intro p h2 hmem
    rcases core _ hmem with h | ⟨h3, heq, hmag, hP, hB, hF⟩
    · simp [keepsMagicZero] at h
    · injection heq with e1 e2
      subst e1
      subst e2
      exact ⟨rfl, hmag, hP, hB, hF⟩

/-- Witness for C1 (amended) on a fault-free run. -/
theorem c1_header_discipline_witness :
    (∀ k, oracleHealthy.eraseResult k = -1 ∨
        (HEADER_SIZE : Int) ≤ oracleHealthy.eraseResult k) ∧
    ((∀ n, magicAfter
        (((write_update_for_bootloader oracleHealthy [5, 6] 1 1 8 (some [1])
            (some [2]) false).trace.takeWhile
          (fun e => ! e.isRealHeaderWrite)).take n)
        = List.replicate UPDATE_MAGIC_SIZE 0) ∧
    (∀ p h2, MEvent.realHeaderWrite p h2 ∈
        (write_update_for_bootloader oracleHealthy [5, 6] 1 1 8 (some [1])
          (some [2]) false).trace →
      p = 0 ∧ h2.magic = UPDATE_MAGIC ∧
      (∃ q, MEvent.payloadWrite q ([5, 6] : List Nat).length ∈
        (write_update_for_bootloader oracleHealthy [5, 6] 1 1 8 (some [1])
          (some [2]) false).trace) ∧
      (∃ q, MEvent.bitmapWrite q false (some [1] : Option (List Nat)).isNone
          (bitmap_length 8 1 1) ∈
        (write_update_for_bootloader oracleHealthy [5, 6] 1 1 8 (some [1])
          (some [2]) false).trace) ∧
      (∃ q, MEvent.bitmapWrite q true (some [2] : Option (List Nat)).isNone
          (bitmap_length 8 1 1) ∈
        (write_update_for_bootloader oracleHealthy [5, 6] 1 1 8 (some [1])
          (some [2]) false).trace))) :=
  ⟨fun k => Or.inr (by decide : (HEADER_SIZE : Int) ≤ 64),
   c1_header_discipline oracleHealthy [5, 6] 1 1 8 (some [1]) (some [2]) false
     (fun k => Or.inr (by decide : (HEADER_SIZE : Int) ≤ 64))⟩
